import Mathlib

/-!
# load-balancer-go: backend pool and dispatch/failover

A shallow embedding of `server.go`, `pool.go` and the request path of `main.go`
(`loadBalancer`, `proxy.ErrorHandler`, `GetAttemptsFromContext`,
`GetRetryFromContext`), followed by theorems about it.

Conventions of the embedding.

* Execution is sequential: the mutex of `Server` and the atomics of `ServerPool`
  are the plain reads and writes they protect.
* A `*url.URL` is represented by the text `URL.String()` renders, the only thing
  the pool ever compares.
* A `*Server` is represented by its position in `ServerPool.servers`
  (`AddServer` is always given a freshly allocated server, so positions and
  pointers correspond one to one).
* `uint64` arithmetic is arithmetic on `Nat` modulo `2 ^ 64`; `int` arithmetic on
  the context counters is arithmetic on `Int` wrapped to 64 bits.
* A Go run-time panic is the `panic` constructor of `Result`.
-/

namespace LoadBalancer

/-! ## server.go -/

/-- The address of a backend, as rendered by `URL.String()`. -/
structure URL where
  text : String
deriving DecidableEq, Repr

/-- The rendering `u.String()`. -/
def URL.String (u : URL) : String := u.text

/-- The struct `Server`; the `ReverseProxy` field is built in `main` from the same
`serverUrl` and is represented by `ServeHTTP` applied to that address. -/
structure Server where
  URL : URL
  Alive : Bool
deriving DecidableEq, Repr

/-- The method `(b *Server) SetAlive(alive bool)`. -/
def Server.SetAlive (b : Server) (alive : Bool) : Server :=
  { b with Alive := alive }

/-- The method `(b *Server) IsAlive() bool`. -/
def Server.IsAlive (b : Server) : Bool := b.Alive

/-! ## pool.go -/

/-- The struct `ServerPool`: the members and the `uint64` cursor. -/
structure ServerPool where
  servers : List Server
  current : Nat
deriving DecidableEq, Repr

/-- Run-time panics the pool code can raise. -/
inductive Panic where
  | divideByZero
  | indexOutOfRange
deriving DecidableEq, Repr

/-- The outcome of a call that may panic. -/
inductive Result (α : Type) where
  | ok (a : α)
  | panic (p : Panic)
deriving DecidableEq, Repr

/-- The modulus of `uint64`. -/
def uint64Mod : Nat := 2 ^ 64

/-- The method `NextIndex`: `atomic.AddUint64(&s.current, 1)` stores and returns the
incremented cursor; the remainder by `len(s.servers)` panics on an empty pool,
after the store. The second component is the pool afterwards. -/
def ServerPool.NextIndex (s : ServerPool) : Result Nat × ServerPool :=
  let c := (s.current + 1) % uint64Mod
  let s1 : ServerPool := { s with current := c }
  if s.servers.length = 0 then (Result.panic Panic.divideByZero, s1)
  else (Result.ok (c % s.servers.length), s1)

/-- What one run of the scanning loop of `NextServer` yields: the returned member
(`none` for `nil`), the pool afterwards, and the indices on which `IsAlive` was
called, in order. -/
structure Scan where
  ret : Result (Option Nat)
  pool : ServerPool
  inspected : List Nat
deriving DecidableEq, Repr

/-- The loop `for i := index; i < l; i++` of `NextServer`. The first argument is
the number `l - i` of iterations still to run, so the loop condition `i < l` is
`0 < l - i`; `seen` accumulates the inspected indices. -/
def ServerPool.NextServer.loop (s : ServerPool) (index : Nat) :
    Nat → Nat → List Nat → Scan
  | 0, _, seen => { ret := Result.ok none, pool := s, inspected := seen }
  | n + 1, i, seen =>
    let next := i % s.servers.length
    match s.servers[next]? with
    | none => { ret := Result.panic Panic.indexOutOfRange, pool := s, inspected := seen }
    | some b =>
      if b.IsAlive then
        if i ≠ index then
          { ret := Result.ok (some next), pool := { s with current := next },
            inspected := seen ++ [next] }
        else
          { ret := Result.ok (some next), pool := s, inspected := seen ++ [next] }
      else
        ServerPool.NextServer.loop s index n (i + 1) (seen ++ [next])

/-- The method `NextServer`, with the list of inspected indices. -/
def ServerPool.NextServer.scan (s : ServerPool) : Scan :=
  match s.NextIndex with
  | (Result.panic p, s1) => { ret := Result.panic p, pool := s1, inspected := [] }
  | (Result.ok index, s1) =>
    let l := s1.servers.length + index
    ServerPool.NextServer.loop s1 index (l - index) index []

/-- The method `NextServer`: the returned member and the pool afterwards. -/
def ServerPool.NextServer (s : ServerPool) : Result (Option Nat) × ServerPool :=
  ((ServerPool.NextServer.scan s).ret, (ServerPool.NextServer.scan s).pool)

/-- The loop of `SetServerStatus`: the first member whose address renders like
`url` gets `SetAlive(alive)`, and the loop breaks. -/
def ServerPool.SetServerStatus.loop (url : URL) (alive : Bool) : List Server → List Server
  | [] => []
  | b :: rest =>
    if b.URL.String = url.String then b.SetAlive alive :: rest
    else b :: ServerPool.SetServerStatus.loop url alive rest

/-- The method `SetServerStatus`. -/
def ServerPool.SetServerStatus (s : ServerPool) (url : URL) (alive : Bool) : ServerPool :=
  { s with servers := ServerPool.SetServerStatus.loop url alive s.servers }

/-- The statement `s.servers[j].SetAlive(alive)` on the member at position `j`. -/
def ServerPool.setAliveAt (s : ServerPool) (j : Nat) (alive : Bool) : ServerPool :=
  { s with servers := s.servers.modify (fun b => b.SetAlive alive) j }

/-! ## main.go: the request path -/

/-- The two counters a request carries in its context, under the keys `Attempts`
and `Retry`; `none` when the key is absent. -/
structure Request where
  attempts : Option Int
  retry : Option Int
deriving DecidableEq, Repr

/-- Addition of one on the 64-bit `int`. -/
def intSucc (x : Int) : Int := (x + 1 + 2 ^ 63) % 2 ^ 64 - 2 ^ 63

/-- The function `GetAttemptsFromContext`. -/
def GetAttemptsFromContext (r : Request) : Int :=
  match r.attempts with
  | some attempts => attempts
  | none => 1

/-- The function `GetRetryFromContext`. -/
def GetRetryFromContext (r : Request) : Int :=
  match r.retry with
  | some retry => retry
  | none => 0

/-- What the request path does, in order of occurrence. -/
inductive Event where
  /-- A call of `serverPool.NextServer()`: the liveness of the members when it is
  called, and the member it returns. -/
  | nextServer (alive : List Bool) (ret : Option Nat)
  /-- One forward attempt of `proxy.ServeHTTP` to `target`, and whether it
  succeeded (the response is then relayed to the client). -/
  | forward (target : URL) (r : Request) (ok : Bool)
  /-- The first `log.Printf` of the error handler of the proxy of `target`. -/
  | logError (target : URL)
  /-- The wait `time.After(10 * time.Millisecond)`. -/
  | sleep
  /-- A call of `serverPool.SetServerStatus(url, alive)`. -/
  | setServerStatus (url : URL) (alive : Bool)
  /-- The second `log.Printf` of the error handler, with the attempt count. -/
  | logAttempt (attempts : Int)
  /-- A call of `http.Error(w, _, code)`. -/
  | httpError (code : Nat)
deriving DecidableEq, Repr

/-- The constant `http.StatusServiceUnavailable`. -/
def StatusServiceUnavailable : Nat := 503

/-- The global state of the request path: the variable `serverPool`, the number
of forward attempts made so far, and the log of events. -/
structure State where
  serverPool : ServerPool
  forwards : Nat
  trace : List Event
deriving DecidableEq, Repr

/-- The forwarding primitive: whether the forward attempt to `target` succeeds,
given how many forward attempts were made before it. -/
abbrev Forwarder := URL → Nat → Bool

/-- How a call ends: it returns, it panics, or the call budget ran out before it
returned; the state reached is kept in each case. -/
inductive Run where
  | returned (st : State)
  | panicked (p : Panic) (st : State)
  | outOfFuel (st : State)
deriving DecidableEq, Repr

/-- The state a run reached. -/
def Run.state : Run → State
  | Run.returned st => st
  | Run.panicked _ st => st
  | Run.outOfFuel st => st

/-- Appending an event to the log. -/
def State.emit (st : State) (e : Event) : State :=
  { st with trace := st.trace ++ [e] }

mutual

/-- The handler `loadBalancer`. The first argument bounds the depth of nested
calls among `loadBalancer`, `ServeHTTP` and `ErrorHandler`; a call that would exceed
it ends as `outOfFuel` with the state reached so far. The returned `instance` is
dereferenced at its position in the pool to reach its proxy. -/
def loadBalancer (fwd : Forwarder) : Nat → State → Request → Run
  | 0, st, _ => Run.outOfFuel st
  | fuel + 1, st, r =>
    let alive := st.serverPool.servers.map Server.IsAlive
    let res := st.serverPool.NextServer
    let st1 := ({ st with serverPool := res.2 } : State)
    match res.1 with
    | Result.panic p => Run.panicked p st1
    | Result.ok none =>
      Run.returned
        ((st1.emit (Event.nextServer alive none)).emit (Event.httpError StatusServiceUnavailable))
    | Result.ok (some j) =>
      match st1.serverPool.servers[j]? with
      | none => Run.panicked Panic.indexOutOfRange st1
      | some instance_ => ServeHTTP fwd fuel instance_.URL (st1.emit (Event.nextServer alive (some j))) r

/-- The call `proxy.ServeHTTP(w, r)` of the reverse proxy built for `serverUrl`:
one forward attempt; on failure the proxy calls its `ErrorHandler`. -/
def ServeHTTP (fwd : Forwarder) : Nat → URL → State → Request → Run
  | 0, _, st, _ => Run.outOfFuel st
  | fuel + 1, serverUrl, st, r =>
    let ok := fwd serverUrl st.forwards
    let st1 := ({ st with forwards := st.forwards + 1 } : State).emit (Event.forward serverUrl r ok)
    if ok then Run.returned st1
    else ErrorHandler fwd fuel serverUrl st1 r

/-- The closure `proxy.ErrorHandler` that `main` installs on the proxy built for
`serverUrl`. -/
def ErrorHandler (fwd : Forwarder) : Nat → URL → State → Request → Run
  | 0, _, st, _ => Run.outOfFuel st
  | fuel + 1, serverUrl, st, req =>
    let st0 := st.emit (Event.logError serverUrl)
    let retries := GetRetryFromContext req
    let afterRetry :=
      if retries < 3 then
        ServeHTTP fwd fuel serverUrl (st0.emit Event.sleep) { req with retry := some (intSucc retries) }
      else Run.returned st0
    match afterRetry with
    | Run.returned st1 =>
      let st2 := ({ st1 with serverPool := st1.serverPool.SetServerStatus serverUrl false } : State).emit
        (Event.setServerStatus serverUrl false)
      let attempts := GetAttemptsFromContext req
      let st3 := st2.emit (Event.logAttempt attempts)
      loadBalancer fwd fuel st3 { req with attempts := some (intSucc attempts) }
    | other => other

end

/-- The state in which a request arrives: the pool, no forward made, empty log. -/
def State.init (pool : ServerPool) : State :=
  { serverPool := pool, forwards := 0, trace := [] }

/-- A request as the HTTP server hands it over: neither counter is set. -/
def Request.fresh : Request := { attempts := none, retry := none }

/-- A pool built from liveness flags, member `i` having address `b<i>`. -/
def mkPool (alive : List Bool) (current : Nat) : ServerPool :=
  { servers := alive.enum.map (fun p => { URL := ⟨"b" ++ toString p.1⟩, Alive := p.2 }),
    current := current }

/-- Whether the member at position `k` exists and is alive. -/
def ServerPool.aliveAt (s : ServerPool) (k : Nat) : Bool :=
  match s.servers[k]? with
  | some b => b.IsAlive
  | none => false

/-- The candidates a selection starting at `start` looks at, in order:
`(start + i) mod N` for `i` in `0..N`. -/
def ServerPool.candidates (s : ServerPool) (start : Nat) : List Nat :=
  (List.range s.servers.length).map (fun i => (start + i) % s.servers.length)

/-- The rotation start of the next selection: the incremented cursor modulo the
number of members. -/
def ServerPool.start (s : ServerPool) : Nat :=
  ((s.current + 1) % uint64Mod) % s.servers.length

/-- The selection `nextLive()` as the specification words it: among the candidates
`(start + i) mod N`, `i` in `0..N`, the first one that is alive, and none when
there is no such candidate. -/
def nextLiveSpec (s : ServerPool) : Option Nat :=
  ((List.range s.servers.length).find? (fun i => s.aliveAt ((s.start + i) % s.servers.length))).map
    (fun i => (s.start + i) % s.servers.length)

/-- The alive members in cyclic index order, beginning at the rotation start of the
next selection. -/
def ServerPool.aliveCycle (s : ServerPool) : List Nat :=
  (s.candidates s.start).filter s.aliveAt

/-- The results of `n` consecutive calls of `NextServer`, and the pool afterwards. -/
def ServerPool.NextServerTimes : Nat → ServerPool → List (Result (Option Nat)) × ServerPool
  | 0, s => ([], s)
  | n + 1, s =>
    ((s.NextServer).1 :: (ServerPool.NextServerTimes n (s.NextServer).2).1,
      (ServerPool.NextServerTimes n (s.NextServer).2).2)

/-- The pool after the increment of `NextIndex`. -/
def ServerPool.bumped (s : ServerPool) : ServerPool :=
  { s with current := (s.current + 1) % uint64Mod }

/-- What handling may do to the state: the addresses stay, no member becomes alive,
the log and the count of forwards only grow. -/
def State.Extends (st st2 : State) : Prop :=
  st2.serverPool.servers.map Server.URL = st.serverPool.servers.map Server.URL
    ∧ (∀ j, st2.serverPool.aliveAt j = true → st.serverPool.aliveAt j = true)
    ∧ (∃ rest, st2.trace = st.trace ++ rest)
    ∧ st.forwards ≤ st2.forwards

/-- Errors are written only on pool exhaustion: every `http.Error` carries status 503 and comes right
after a `NextServer` call that returned `nil` with no member alive. -/
def ErrorsOnlyOnExhaustion (t : List Event) : Prop :=
  ∀ pre code post, t = pre ++ Event.httpError code :: post →
    code = 503 ∧ ∃ pre2 alive, pre = pre2 ++ [Event.nextServer alive none] ∧ ∀ a ∈ alive, a = false

/-- The loop of `HealthCheck`: every member, in order, gets `SetAlive` of what the
probe `isInstanceAlive` answers for its address. -/
def ServerPool.HealthCheck.loop (isInstanceAlive : URL → Bool) : List Server → List Server
  | [] => []
  | i :: rest =>
    i.SetAlive (isInstanceAlive i.URL) :: ServerPool.HealthCheck.loop isInstanceAlive rest

/-- The method `HealthCheck`; the probe `isInstanceAlive` of `main.go` dials the
address and is taken as a parameter. -/
def ServerPool.HealthCheck (s : ServerPool) (isInstanceAlive : URL → Bool) : ServerPool :=
  { s with servers := ServerPool.HealthCheck.loop isInstanceAlive s.servers }

/-- What `n` rounds of the local retry against `B` log when every re-forward fails:
per round the handler's log line, the wait, and the failed re-forward carrying the
next counter, starting after a request that carried the counter `r`. -/
def retryRounds (B : URL) (attempts : Option Int) : Int → Nat → List Event
  | _, 0 => []
  | r, n + 1 =>
    [Event.logError B, Event.sleep,
      Event.forward B { attempts := attempts, retry := some (r + 1) } false]
      ++ retryRounds B attempts (r + 1) n

/-- The members have pairwise distinct URL strings. -/
def ServerPool.Distinct (s : ServerPool) : Prop :=
  (s.servers.map (fun b => b.URL.String)).Nodup

/-- The set of the positions of the members that are alive. -/
def ServerPool.aliveSet (s : ServerPool) : Finset Nat :=
  (Finset.range s.servers.length).filter (fun j => s.aliveAt j = true)

/-- Whether an event is a failed forward attempt to `u`. -/
def Event.isFailedForwardTo (u : URL) : Event → Bool
  | Event.forward target _ ok => decide (target = u) && !ok
  | _ => false

/-- The number of failed forward attempts to `u` in a log. -/
def failedForwards (u : URL) (t : List Event) : Nat :=
  (t.filter (Event.isFailedForwardTo u)).length

/-- Some member with address `u` is alive. -/
def State.urlAlive (st : State) (u : URL) : Prop :=
  ∃ (j : Nat) (b : Server), st.serverPool.servers[j]? = some b ∧ b.URL = u ∧ b.IsAlive = true

/-- What handling between two states may do to the backend `u`: none of its
forwards fails if no member with address `u` was alive at the start, at most four
fail, and if one fails no member with address `u` is alive at the end. -/
def FailOK (u : URL) (st st2 : State) : Prop :=
  (¬ st.urlAlive u → failedForwards u st2.trace = failedForwards u st.trace)
    ∧ failedForwards u st2.trace ≤ failedForwards u st.trace + 4
    ∧ (failedForwards u st.trace < failedForwards u st2.trace → ¬ st2.urlAlive u)

/-- What a completed handling leaves behind: the state is extended, and every
backend is treated as `FailOK` says. -/
def Handled (st st2 : State) : Prop :=
  st.Extends st2 ∧ ∀ u, FailOK u st st2

/-- A pool of two members that share the address `x`, the second of them alive:
marking by address only ever reaches the first, so the second stays alive. -/
def State.TwinStuck (x : URL) (st : State) : Prop :=
  st.serverPool.servers = [⟨x, true⟩, ⟨x, true⟩]
    ∨ st.serverPool.servers = [⟨x, false⟩, ⟨x, true⟩]

/-! ## The scanning loop -/

section Loop

variable (s : ServerPool) (index : Nat)

theorem aliveAt_of_getElem? {s : ServerPool} {k : Nat} {b : Server}
    (h : s.servers[k]? = some b) : s.aliveAt k = b.IsAlive := by
  simp [ServerPool.aliveAt, h]

theorem getElem?_mod_length (hN : 0 < s.servers.length) (i : Nat) :
    ∃ b, s.servers[i % s.servers.length]? = some b :=
  ⟨s.servers.get ⟨i % s.servers.length, Nat.mod_lt _ hN⟩, List.getElem?_eq_getElem _⟩

/-- The loop returns the first alive candidate among `i, i+1, ..., i+n-1`
(reduced modulo the number of members) and stores it in the cursor when it is not
the first one looked at. -/
theorem loop_eq (hN : 0 < s.servers.length) (n i : Nat) (seen : List Nat) :
    (ServerPool.NextServer.loop s index n i seen).ret
        = Result.ok (((List.range' i n).find? (fun k => s.aliveAt (k % s.servers.length))).map
            (fun k => k % s.servers.length))
      ∧ (ServerPool.NextServer.loop s index n i seen).pool
        = (match (List.range' i n).find? (fun k => s.aliveAt (k % s.servers.length)) with
            | none => s
            | some k => if k ≠ index then { s with current := k % s.servers.length } else s) := by
  induction n generalizing i seen with
  | zero => simp [ServerPool.NextServer.loop]
  | succ n ih =>
    obtain ⟨b, hb⟩ := getElem?_mod_length s hN i
    have ha := aliveAt_of_getElem? hb
    rw [ServerPool.NextServer.loop, List.range'_succ, List.find?_cons]
    simp only [hb, ha]
    cases hlive : b.IsAlive with
    | true =>
      by_cases hi : i = index <;> simp [hi]
    | false =>
      simpa using ih (i + 1) (seen ++ [i % s.servers.length])

/-- The loop inspects at most as many candidates as it has iterations. -/
theorem loop_inspected_length (n i : Nat) (seen : List Nat) :
    (ServerPool.NextServer.loop s index n i seen).inspected.length ≤ seen.length + n := by
  induction n generalizing i seen with
  | zero => simp [ServerPool.NextServer.loop]
  | succ n ih =>
    rw [ServerPool.NextServer.loop]
    cases hb : s.servers[i % s.servers.length]? with
    | none => simp
    | some b =>
      cases hlive : b.IsAlive with
      | true => by_cases hi : i = index <;> simp [hi, hlive]
      | false =>
        have := ih (i + 1) (seen ++ [i % s.servers.length])
        simp only [List.length_append, List.length_singleton] at this
        simp only [hlive, Bool.false_eq_true, if_false]
        omega

end Loop

/-! ## `NextIndex` and `NextServer` on a non-empty pool -/

section Selection

variable (s : ServerPool)

theorem NextIndex_eq (hN : 0 < s.servers.length) :
    s.NextIndex = (Result.ok s.start, s.bumped) := by
  have : s.servers.length ≠ 0 := by omega
  simp [ServerPool.NextIndex, ServerPool.start, ServerPool.bumped, this]

theorem mod_eq_start_iff {N start k : Nat} (h0 : start < N) (h1 : start ≤ k)
    (h2 : k < start + N) : k % N = start ↔ k = start := by
  constructor
  · intro h
    by_cases hk : k < N
    · rwa [Nat.mod_eq_of_lt hk] at h
    · rw [Nat.mod_eq_sub_mod (by omega), Nat.mod_eq_of_lt (by omega)] at h
      omega
  · intro h
    rw [h, Nat.mod_eq_of_lt h0]

theorem candidates_eq (start : Nat) :
    s.candidates start
      = (List.range' start s.servers.length).map (fun k => k % s.servers.length) := by
  simp [ServerPool.candidates, List.range'_eq_map_range, Function.comp_def]

theorem find?_candidates (start : Nat) :
    (s.candidates start).find? s.aliveAt
      = ((List.range' start s.servers.length).find? (fun k => s.aliveAt (k % s.servers.length))).map
          (fun k => k % s.servers.length) := by
  rw [candidates_eq, List.find?_map]
  rfl

theorem start_lt (hN : 0 < s.servers.length) : s.start < s.servers.length :=
  Nat.mod_lt _ hN

/-- What `NextServer` does on a non-empty pool: it returns the first alive
candidate of the rotation; the members are untouched; the cursor holds the returned
index when that differs from the start, and the incremented cursor otherwise. -/
theorem NextServer_eq (hN : 0 < s.servers.length) :
    (s.NextServer).1 = Result.ok ((s.candidates s.start).find? s.aliveAt)
      ∧ (s.NextServer).2.servers = s.servers
      ∧ (s.NextServer).2.current
          = (match (s.candidates s.start).find? s.aliveAt with
              | none => (s.current + 1) % uint64Mod
              | some j => if j ≠ s.start then j else (s.current + 1) % uint64Mod) := by
  have hb : s.bumped.servers = s.servers := rfl
  have hN1 : 0 < s.bumped.servers.length := hN
  have hal : s.bumped.aliveAt = s.aliveAt := rfl
  obtain ⟨h1, h2⟩ := loop_eq s.bumped s.start hN1 s.servers.length s.start []
  simp only [hb, hal] at h1 h2
  have hscan : ServerPool.NextServer.scan s
      = ServerPool.NextServer.loop s.bumped s.start s.servers.length s.start [] := by
    simp [ServerPool.NextServer.scan, NextIndex_eq s hN, hb]
  rw [find?_candidates]
  simp only [ServerPool.NextServer, hscan, h1, h2]
  refine ⟨trivial, ?_, ?_⟩
  · split
    · rfl
    · split <;> rfl
  · cases hf : (List.range' s.start s.servers.length).find?
        (fun k => s.aliveAt (k % s.servers.length)) with
    | none => rfl
    | some k =>
      have hmem := List.mem_of_find?_eq_some hf
      rw [List.mem_range'_1] at hmem
      have hiff := mod_eq_start_iff (start_lt s hN) hmem.1 hmem.2
      by_cases hk : k = s.start
      · have : k % s.servers.length = s.start := hiff.mpr hk
        simp [hk, this, ServerPool.bumped]
        simp [← hk, this]
      · have : k % s.servers.length ≠ s.start := fun h => hk (hiff.mp h)
        simp [hk, this]

/-- The selection agrees with the specification's wording. -/
theorem NextServer_eq_spec (hN : 0 < s.servers.length) :
    (s.NextServer).1 = Result.ok (nextLiveSpec s) := by
  rw [(NextServer_eq s hN).1, nextLiveSpec, ServerPool.candidates, List.find?_map]
  rfl

theorem scan_inspected_length (hN : 0 < s.servers.length) :
    (ServerPool.NextServer.scan s).inspected.length ≤ s.servers.length := by
  have hscan : ServerPool.NextServer.scan s
      = ServerPool.NextServer.loop s.bumped s.start s.servers.length s.start [] := by
    simp [ServerPool.NextServer.scan, NextIndex_eq s hN, ServerPool.bumped]
  rw [hscan]
  simpa using loop_inspected_length s.bumped s.start s.servers.length s.start []

/-- The candidates of a rotation are the member indices rotated by the start. -/
theorem candidates_eq_rotate (start : Nat) :
    s.candidates start = (List.range s.servers.length).rotate start := by
  apply List.ext_getElem
  · simp [ServerPool.candidates]
  · intro i h1 h2
    rw [List.getElem_rotate]
    simp [ServerPool.candidates, Nat.add_comm]

theorem mem_candidates (start j : Nat) :
    j ∈ s.candidates start ↔ j < s.servers.length := by
  rw [candidates_eq_rotate, List.mem_rotate, List.mem_range]

theorem aliveAt_lt {j : Nat} (h : s.aliveAt j = true) : j < s.servers.length := by
  unfold ServerPool.aliveAt at h
  cases hb : s.servers[j]? with
  | none => simp [hb] at h
  | some b => exact (List.getElem?_eq_some.mp hb).1

theorem aliveAt_iff {j : Nat} :
    s.aliveAt j = true ↔ ∃ b, s.servers[j]? = some b ∧ b.IsAlive = true := by
  unfold ServerPool.aliveAt
  cases hb : s.servers[j]? <;> simp

/-- A returned member is alive when `NextServer` is called. -/
theorem NextServer_some_alive (hN : 0 < s.servers.length) {j : Nat}
    (h : (s.NextServer).1 = Result.ok (some j)) : s.aliveAt j = true := by
  rw [(NextServer_eq s hN).1] at h
  injection h with h
  exact List.find?_some h

/-- The call returns `nil` exactly when no member is alive. -/
theorem NextServer_none_iff (hN : 0 < s.servers.length) :
    (s.NextServer).1 = Result.ok none ↔ ∀ j, s.aliveAt j = false := by
  rw [(NextServer_eq s hN).1]
  constructor
  · intro h j
    injection h with h
    rw [List.find?_eq_none] at h
    by_cases hj : j < s.servers.length
    · simpa using h j ((mem_candidates s _ j).mpr hj)
    · cases hal : s.aliveAt j with
      | false => rfl
      | true => exact absurd (aliveAt_lt s hal) hj
  · intro h
    congr 1
    rw [List.find?_eq_none]
    intro j _
    simp [h j]

/-- On a non-empty pool `NextServer` does not panic. -/
theorem NextServer_ok (hN : 0 < s.servers.length) :
    ∃ r, (s.NextServer).1 = Result.ok r :=
  ⟨_, (NextServer_eq s hN).1⟩

theorem NextServer_aliveAt (hN : 0 < s.servers.length) :
    (s.NextServer).2.aliveAt = s.aliveAt := by
  funext k
  simp [ServerPool.aliveAt, (NextServer_eq s hN).2.1]

theorem aliveAt_setAliveAt_self (j : Nat) : (s.setAliveAt j false).aliveAt j = false := by
  unfold ServerPool.aliveAt ServerPool.setAliveAt
  simp only [List.getElem?_modify_eq]
  cases s.servers[j]? <;> simp [Server.IsAlive, Server.SetAlive]

theorem length_setAliveAt (j : Nat) (v : Bool) :
    (s.setAliveAt j v).servers.length = s.servers.length := by
  simp [ServerPool.setAliveAt]

end Selection

/-- The first hit of a search through `0..N` is the least index that satisfies the
predicate. -/
theorem find?_range_least (p : Nat → Bool) {N i : Nat} (hi : i < N) (hp : p i = true)
    (hleast : ∀ k, k < i → p k = false) : (List.range N).find? p = some i := by
  induction N with
  | zero => omega
  | succ n ih =>
    rw [List.range_succ, List.find?_append]
    by_cases hin : i < n
    · rw [ih hin]; rfl
    · have hin2 : i = n := by omega
      have hnone : (List.range n).find? p = none := by
        rw [List.find?_eq_none]
        intro k hk
        rw [List.mem_range] at hk
        simp [hleast k (by omega)]
      rw [hnone, ← hin2]
      simp [hp]

/-- Consecutive selections leave the members untouched and return only members
that are alive. -/
theorem NextServerTimes_alive (n : Nat) (s : ServerPool) (hN : 0 < s.servers.length) :
    (s.NextServerTimes n).2.servers = s.servers
      ∧ ∀ j, Result.ok (some j) ∈ (s.NextServerTimes n).1 → s.aliveAt j = true := by
  induction n generalizing s with
  | zero => simp [ServerPool.NextServerTimes]
  | succ n ih =>
    have hs := (NextServer_eq s hN).2.1
    have hN2 : 0 < (s.NextServer).2.servers.length := by rw [hs]; exact hN
    obtain ⟨h1, h2⟩ := ih (s.NextServer).2 hN2
    refine ⟨by simp [ServerPool.NextServerTimes, h1, hs], ?_⟩
    intro j hj
    simp only [ServerPool.NextServerTimes, List.mem_cons] at hj
    rcases hj with hj | hj
    · exact NextServer_some_alive s hN hj.symm
    · rw [← NextServer_aliveAt s hN]
      exact h2 j hj

/-! ## Rotation with every member alive -/

theorem aliveAt_of_all_alive (s : ServerPool) (hall : ∀ b ∈ s.servers, b.IsAlive = true)
    {j : Nat} (hj : j < s.servers.length) : s.aliveAt j = true := by
  rw [aliveAt_of_getElem? (List.getElem?_eq_getElem hj)]
  exact hall _ (List.getElem_mem hj)

/-- With every member alive the first candidate is returned and the cursor is only
incremented. -/
theorem NextServer_all_alive (s : ServerPool) (hN : 0 < s.servers.length)
    (hall : ∀ b ∈ s.servers, b.IsAlive = true) :
    (s.NextServer).1 = Result.ok (some s.start)
      ∧ (s.NextServer).2.servers = s.servers
      ∧ (s.NextServer).2.current = (s.current + 1) % uint64Mod := by
  have hstart : (s.start + 0) % s.servers.length = s.start := by
    rw [Nat.add_zero, Nat.mod_eq_of_lt (start_lt s hN)]
  have hfind : (s.candidates s.start).find? s.aliveAt = some s.start := by
    have h := (NextServer_eq s hN).1
    rw [NextServer_eq_spec s hN, nextLiveSpec, find?_range_least
      (fun i => s.aliveAt ((s.start + i) % s.servers.length)) hN
      (aliveAt_of_all_alive s hall (Nat.mod_lt _ hN)) (fun k hk => absurd hk (Nat.not_lt_zero k))] at h
    simp only [Option.map_some', hstart] at h
    injection h with h
    exact h.symm
  obtain ⟨h1, h2, h3⟩ := NextServer_eq s hN
  rw [hfind] at h1 h3
  exact ⟨h1, h2, by simpa using h3⟩

/-- With every member alive and no wrap-around of the cursor, `m` consecutive
selections walk through the indices `cursor + 1, cursor + 2, ...` modulo the number
of members. -/
theorem NextServerTimes_all_alive (m : Nat) (s : ServerPool) (hN : 0 < s.servers.length)
    (hall : ∀ b ∈ s.servers, b.IsAlive = true)
    (hwrap : (s.current + 1) % uint64Mod + m ≤ uint64Mod) :
    (s.NextServerTimes m).1
      = (List.range m).map (fun k => Result.ok (some ((s.start + k) % s.servers.length))) := by
  induction m generalizing s with
  | zero => simp [ServerPool.NextServerTimes]
  | succ m ih =>
    obtain ⟨h1, h2, h3⟩ := NextServer_all_alive s hN hall
    have hN2 : 0 < (s.NextServer).2.servers.length := by rw [h2]; exact hN
    have hall2 : ∀ b ∈ (s.NextServer).2.servers, b.IsAlive = true := by rw [h2]; exact hall
    have hlt : (s.current + 1) % uint64Mod + 1 < uint64Mod ∨ m = 0 := by omega
    rw [ServerPool.NextServerTimes, List.range_succ_eq_map, List.map_cons, List.map_map, h1]
    rw [Nat.add_zero, Nat.mod_eq_of_lt (start_lt s hN)]
    show _ :: _ = _ :: _
    refine congrArg (List.cons _) ?_
    · rcases hlt with hlt | hm
      · have hcur : ((s.NextServer).2.current + 1) % uint64Mod = (s.current + 1) % uint64Mod + 1 := by
          rw [h3, Nat.mod_eq_of_lt hlt]
        rw [ih _ hN2 hall2 (by rw [hcur]; omega)]
        apply List.map_congr_left
        intro k _
        simp only [Function.comp, ServerPool.start, hcur, h2]
        congr 2
        rw [Nat.mod_add_mod, Nat.mod_add_mod, Nat.succ_eq_add_one]
        congr 1
        omega
      · subst hm
        simp [ServerPool.NextServerTimes]

/-! ## Rotation through the alive members -/

/-- A rotation of `0..N` whose first element satisfying `p` is `j`: rotating on to
just after `j` moves `j` to the end of the elements that satisfy `p`. -/
theorem filter_rotate_succ (p : Nat → Bool) (N a j : Nat) (T : List Nat)
    (h : ((List.range N).rotate a).filter p = j :: T) :
    ((List.range N).rotate (j + 1)).filter p = T ++ [j] := by
  obtain ⟨pre, post, hl, hpre, hj, hpost⟩ := List.filter_eq_cons_iff.mp h
  have hrot : (List.range N).rotate (a + pre.length) = j :: (post ++ pre) := by
    rw [← List.rotate_rotate, hl, List.rotate_append_length_eq]
    rfl
  have hNpos : 0 < N := by
    rcases Nat.eq_zero_or_pos N with h0 | h0
    · subst h0
      simp at hl
    · exact h0
  have hjeq : j = (a + pre.length) % N := by
    have h1 := List.getElem?_rotate (l := List.range N) (n := a + pre.length) (m := 0)
      (by simpa using hNpos)
    rw [hrot, List.length_range, Nat.zero_add,
      List.getElem?_range (Nat.mod_lt _ hNpos)] at h1
    simpa using h1
  have hrot2 : (List.range N).rotate (j + 1) = post ++ pre ++ [j] := by
    have hmod : (List.range N).rotate j = (List.range N).rotate (a + pre.length) := by
      rw [hjeq]
      have := List.rotate_mod (List.range N) (a + pre.length)
      rwa [List.length_range] at this
    rw [← List.rotate_rotate, hmod, hrot, List.rotate_cons_succ, List.rotate_zero]
  have hpre2 : pre.filter p = [] := by
    rw [List.filter_eq_nil_iff]
    exact hpre
  rw [hrot2, List.filter_append, List.filter_append, hpost, hpre2]
  simp [hj]

section Cycle

variable (s : ServerPool)

/-- The selection returns the head of the alive cycle. -/
theorem NextServer_head (hN : 0 < s.servers.length) :
    (s.NextServer).1 = Result.ok s.aliveCycle.head? := by
  rw [(NextServer_eq s hN).1, ServerPool.aliveCycle, List.filter_head?]

/-- The cursor after a selection that returned `j` is the incremented cursor or an
index, and it is congruent to `j` modulo the number of members. -/
theorem NextServer_current (hN : 0 < s.servers.length) {j : Nat}
    (h : (s.NextServer).1 = Result.ok (some j)) :
    (s.NextServer).2.current % s.servers.length = j
      ∧ ((s.NextServer).2.current = (s.current + 1) % uint64Mod
          ∨ (s.NextServer).2.current < s.servers.length) := by
  obtain ⟨h1, _, h3⟩ := NextServer_eq s hN
  have hj : j < s.servers.length := aliveAt_lt s (NextServer_some_alive s hN h)
  rw [h1] at h
  injection h with h
  rw [h] at h3
  by_cases hjs : j = s.start
  · simp only [hjs, ne_eq, not_true_eq_false, if_false] at h3
    exact ⟨by rw [h3, hjs]; rfl, Or.inl h3⟩
  · simp only [ne_eq, hjs, not_false_eq_true, if_true] at h3
    exact ⟨by rw [h3, Nat.mod_eq_of_lt hj], Or.inr (by rw [h3]; exact hj)⟩

/-- After a selection that returned `j` the alive cycle is rotated by one, provided
the next increment of the cursor does not wrap around. -/
theorem aliveCycle_NextServer (hN : 0 < s.servers.length) {j : Nat} {T : List Nat}
    (h : s.aliveCycle = j :: T) (hwrap : (s.NextServer).2.current + 1 < uint64Mod) :
    (s.NextServer).2.aliveCycle = T ++ [j] := by
  have hret : (s.NextServer).1 = Result.ok (some j) := by
    rw [NextServer_head s hN, h]; rfl
  have hserv := (NextServer_eq s hN).2.1
  obtain ⟨hmod, _⟩ := NextServer_current s hN hret
  have hstart : (s.NextServer).2.start = (j + 1) % s.servers.length := by
    rw [ServerPool.start, Nat.mod_eq_of_lt hwrap, hserv, ← hmod, Nat.mod_add_mod]
  rw [ServerPool.aliveCycle, NextServer_aliveAt s hN, hstart, candidates_eq_rotate, hserv]
  have hm := List.rotate_mod (List.range s.servers.length) (j + 1)
  rw [List.length_range] at hm
  rw [hm]
  apply filter_rotate_succ s.aliveAt s.servers.length s.start
  rw [← candidates_eq_rotate]
  exact h

theorem aliveCycle_perm : List.Perm s.aliveCycle ((List.range s.servers.length).filter s.aliveAt) := by
  rw [ServerPool.aliveCycle, candidates_eq_rotate]
  exact (List.rotate_perm _ _).filter _

theorem aliveCycle_length_le : s.aliveCycle.length ≤ s.servers.length := by
  have h := List.length_filter_le s.aliveAt (s.candidates s.start)
  simpa [ServerPool.aliveCycle, ServerPool.candidates] using h

end Cycle

/-- The number of alive indices is the number of alive members. -/
theorem filter_range_aliveAt (l : List Server) (c : Nat) :
    ((List.range l.length).filter (ServerPool.aliveAt ⟨l, c⟩)).length
      = l.countP Server.IsAlive := by
  induction l using List.reverseRecOn with
  | nil => simp
  | append_singleton l b ih =>
    rw [List.length_append, List.length_singleton, List.range_succ, List.filter_append,
      List.length_append, List.countP_append]
    congr 1
    · rw [← ih]
      congr 1
      apply List.filter_congr
      intro k hk
      rw [List.mem_range] at hk
      simp [ServerPool.aliveAt, List.getElem?_append_left hk]
    · have hb : ServerPool.aliveAt ⟨l ++ [b], c⟩ l.length = b.IsAlive :=
        aliveAt_of_getElem? (by simp)
      cases hlive : b.IsAlive <;> simp [List.filter, List.countP_cons, hb, hlive]

theorem aliveCycle_length (s : ServerPool) :
    s.aliveCycle.length = s.servers.countP Server.IsAlive := by
  rw [(aliveCycle_perm s).length_eq]
  exact filter_range_aliveAt s.servers s.current

/-- Consecutive selections walk through the alive cycle, as long as the cursor does
not wrap around between them. -/
theorem NextServerTimes_aliveCycle (m : Nat) (s : ServerPool) (hN : 0 < s.servers.length)
    (hm : m ≤ s.aliveCycle.length)
    (hwrap : (s.current + 1) % uint64Mod + m ≤ uint64Mod)
    (hlen : s.servers.length + m ≤ uint64Mod + 1) :
    (s.NextServerTimes m).1 = (s.aliveCycle.take m).map (fun j => Result.ok (some j)) := by
  induction m generalizing s with
  | zero => simp [ServerPool.NextServerTimes]
  | succ m ih =>
    cases hA : s.aliveCycle with
    | nil => rw [hA] at hm; simp at hm
    | cons j T =>
      have hret : (s.NextServer).1 = Result.ok (some j) := by
        rw [NextServer_head s hN, hA]; rfl
      have hserv := (NextServer_eq s hN).2.1
      have hN2 : 0 < (s.NextServer).2.servers.length := by rw [hserv]; exact hN
      obtain ⟨_, hcur⟩ := NextServer_current s hN hret
      rw [ServerPool.NextServerTimes, hret]
      show _ :: _ = _
      rw [List.take_succ_cons, List.map_cons]
      refine congrArg (List.cons _) ?_
      rcases Nat.eq_zero_or_pos m with h0 | hpos
      · subst h0
        simp [ServerPool.NextServerTimes]
      · have hw2 : (s.NextServer).2.current + 1 < uint64Mod := by
          rcases hcur with hc | hc
          · rw [hc]; omega
          · omega
        have hcyc := aliveCycle_NextServer s hN hA hw2
        rw [hA, List.length_cons] at hm
        rw [ih _ hN2 (by rw [hcyc]; simp; omega)
          (by rw [Nat.mod_eq_of_lt hw2]; rcases hcur with hc | hc <;> omega)
          (by rw [hserv]; omega), hcyc, List.take_append_of_le_length (by omega)]

/-! ## `SetServerStatus` -/

/-- When a member's address matches, the first such member is the one changed. -/
theorem SetServerStatus_loop_set (u : URL) (v : Bool) (l : List Server) (j : Nat) (b : Server)
    (hb : l[j]? = some b) (hu : b.URL.String = u.String)
    (hfirst : ∀ i b', i < j → l[i]? = some b' → b'.URL.String ≠ u.String) :
    ServerPool.SetServerStatus.loop u v l = l.set j (b.SetAlive v) := by
  induction l generalizing j with
  | nil => simp at hb
  | cons a rest ih =>
    cases j with
    | zero =>
      simp only [List.getElem?_cons_zero, Option.some.injEq] at hb
      subst hb
      simp [ServerPool.SetServerStatus.loop, hu]
    | succ j =>
      have ha : a.URL.String ≠ u.String := hfirst 0 a (Nat.succ_pos j) (by simp)
      simp only [List.getElem?_cons_succ] at hb
      rw [ServerPool.SetServerStatus.loop, if_neg ha, List.set_cons_succ,
        ih j hb (fun i b' hi hb' => hfirst (i + 1) b' (Nat.succ_lt_succ hi) (by simpa using hb'))]

/-- When no member's address matches, nothing is changed. -/
theorem SetServerStatus_loop_none (u : URL) (v : Bool) (l : List Server)
    (h : ∀ b ∈ l, b.URL.String ≠ u.String) : ServerPool.SetServerStatus.loop u v l = l := by
  induction l with
  | nil => rfl
  | cons a rest ih =>
    rw [ServerPool.SetServerStatus.loop, if_neg (h a (List.mem_cons_self _ _)),
      ih (fun b hb => h b (List.mem_cons_of_mem _ hb))]

/-- Each member after `SetServerStatus` is the member before, possibly with another
liveness. -/
theorem SetServerStatus_loop_getElem? (u : URL) (v : Bool) (l : List Server) (j : Nat) :
    (ServerPool.SetServerStatus.loop u v l)[j]? = l[j]?
      ∨ ∃ b, l[j]? = some b ∧ (ServerPool.SetServerStatus.loop u v l)[j]? = some (b.SetAlive v) := by
  induction l generalizing j with
  | nil => left; rfl
  | cons a rest ih =>
    rw [ServerPool.SetServerStatus.loop]
    by_cases ha : a.URL.String = u.String
    · rw [if_pos ha]
      cases j with
      | zero => right; exact ⟨a, by simp, by simp⟩
      | succ j => left; simp
    · rw [if_neg ha]
      cases j with
      | zero => left; simp
      | succ j => simpa using ih j

theorem SetServerStatus_loop_urls (u : URL) (v : Bool) (l : List Server) :
    (ServerPool.SetServerStatus.loop u v l).map Server.URL = l.map Server.URL := by
  induction l with
  | nil => rfl
  | cons a rest ih =>
    rw [ServerPool.SetServerStatus.loop]
    by_cases ha : a.URL.String = u.String
    · rw [if_pos ha]; rfl
    · rw [if_neg ha, List.map_cons, ih, List.map_cons]

/-! ## The request path only extends the log and only shrinks the alive set -/

theorem State.Extends.refl (st : State) : st.Extends st :=
  ⟨rfl, fun _ h => h, ⟨[], by simp⟩, Nat.le_refl _⟩

theorem State.Extends.trans {a b c : State} (h1 : a.Extends b) (h2 : b.Extends c) :
    a.Extends c := by
  obtain ⟨u1, l1, ⟨r1, t1⟩, f1⟩ := h1
  obtain ⟨u2, l2, ⟨r2, t2⟩, f2⟩ := h2
  exact ⟨u2.trans u1, fun j h => l1 j (l2 j h), ⟨r1 ++ r2, by rw [t2, t1, List.append_assoc]⟩,
    Nat.le_trans f1 f2⟩

theorem State.Extends.emit (st : State) (e : Event) : st.Extends (st.emit e) :=
  ⟨rfl, fun _ h => h, ⟨[e], rfl⟩, Nat.le_refl _⟩

theorem State.Extends.nextServer (st : State) (hN : 0 < st.serverPool.servers.length) :
    st.Extends { st with serverPool := (st.serverPool.NextServer).2 } := by
  refine ⟨?_, ?_, ⟨[], by simp⟩, Nat.le_refl _⟩
  · show List.map _ (st.serverPool.NextServer).2.servers = _
    rw [(NextServer_eq st.serverPool hN).2.1]
  · intro j h
    have : (st.serverPool.NextServer).2.aliveAt j = true := h
    rwa [NextServer_aliveAt st.serverPool hN] at this

theorem State.Extends.forward (st : State) :
    st.Extends { st with forwards := st.forwards + 1 } :=
  ⟨rfl, fun _ h => h, ⟨[], by simp⟩, Nat.le_succ _⟩

theorem aliveAt_SetServerStatus_false (s : ServerPool) (u : URL) (j : Nat)
    (h : (s.SetServerStatus u false).aliveAt j = true) : s.aliveAt j = true := by
  unfold ServerPool.aliveAt at h ⊢
  rcases SetServerStatus_loop_getElem? u false s.servers j with h1 | ⟨b, _, h2⟩
  · simp only [ServerPool.SetServerStatus] at h
    rwa [h1] at h
  · simp only [ServerPool.SetServerStatus, h2] at h
    exact absurd h (by simp [Server.IsAlive, Server.SetAlive])

theorem State.Extends.setServerStatus (st : State) (u : URL) :
    st.Extends { st with serverPool := st.serverPool.SetServerStatus u false } :=
  ⟨SetServerStatus_loop_urls u false st.serverPool.servers,
    fun j h => aliveAt_SetServerStatus_false st.serverPool u j h, ⟨[], by simp⟩, Nat.le_refl _⟩

/-- On an empty pool `NextServer` panics. -/
theorem NextServer_empty (s : ServerPool) (h : s.servers.length = 0) :
    (s.NextServer).1 = Result.panic Panic.divideByZero
      ∧ (s.NextServer).2.servers = s.servers := by
  simp [ServerPool.NextServer, ServerPool.NextServer.scan, ServerPool.NextIndex, h]

theorem State.Extends.nextServer_any (st : State) :
    st.Extends { st with serverPool := (st.serverPool.NextServer).2 } := by
  rcases Nat.eq_zero_or_pos st.serverPool.servers.length with h0 | hN
  · have hs := (NextServer_empty st.serverPool h0).2
    refine ⟨by show List.map _ (st.serverPool.NextServer).2.servers = _; rw [hs], ?_,
      ⟨[], by simp⟩, Nat.le_refl _⟩
    intro j h
    have h2 : (st.serverPool.NextServer).2.aliveAt j = true := h
    unfold ServerPool.aliveAt at h2 ⊢
    rwa [hs] at h2
  · exact State.Extends.nextServer st hN

/-- Every call on the request path extends the state it starts from, whether it
returns or not. -/
theorem run_extends (fwd : Forwarder) (fuel : Nat) :
    (∀ (st : State) r, st.Extends (loadBalancer fwd fuel st r).state)
      ∧ (∀ u (st : State) r, st.Extends (ServeHTTP fwd fuel u st r).state)
      ∧ (∀ u (st : State) r, st.Extends (ErrorHandler fwd fuel u st r).state) := by
  induction fuel with
  | zero =>
    refine ⟨?_, ?_, ?_⟩ <;> intros <;> simp only [loadBalancer, ServeHTTP, ErrorHandler] <;>
      exact State.Extends.refl _
  | succ fuel ih =>
    obtain ⟨ihL, ihS, ihE⟩ := ih
    refine ⟨?_, ?_, ?_⟩
    · intro st r
      have h1 := State.Extends.nextServer_any st
      rw [loadBalancer]
      simp only []
      cases hres : (st.serverPool.NextServer).1 with
      | panic p => exact h1
      | ok o =>
        cases o with
        | none =>
          exact h1.trans ((State.Extends.emit _ _).trans (State.Extends.emit _ _))
        | some j =>
          simp only []
          cases hb : (st.serverPool.NextServer).2.servers[j]? with
          | none => exact h1
          | some b => exact h1.trans ((State.Extends.emit _ _).trans (ihS _ _ _))
    · intro u st r
      rw [ServeHTTP]
      have h1 : ∀ ok, st.Extends (({ st with forwards := st.forwards + 1 } : State).emit
          (Event.forward u r ok)) :=
        fun ok => (State.Extends.forward st).trans (State.Extends.emit _ _)
      cases hok : fwd u st.forwards with
      | true => exact h1 true
      | false => exact (h1 false).trans (ihE _ _ _)
    · intro u st r
      rw [ErrorHandler]
      have h0 : st.Extends (st.emit (Event.logError u)) := State.Extends.emit _ _
      generalize hrun : (if GetRetryFromContext r < 3 then
          ServeHTTP fwd fuel u ((st.emit (Event.logError u)).emit Event.sleep)
            { r with retry := some (intSucc (GetRetryFromContext r)) }
        else Run.returned (st.emit (Event.logError u))) = run
      have hext : st.Extends run.state := by
        rw [← hrun]
        split
        · exact h0.trans ((State.Extends.emit _ _).trans (ihS _ _ _))
        · exact h0
      cases run with
      | returned st1 =>
        exact hext.trans ((State.Extends.setServerStatus st1 u).trans
          ((State.Extends.emit _ _).trans ((State.Extends.emit _ _).trans (ihL _ _))))
      | panicked p st1 => exact hext
      | outOfFuel st1 => exact hext

theorem all_dead_of_aliveAt (s : ServerPool) (h : ∀ j, s.aliveAt j = false) :
    ∀ a ∈ s.servers.map Server.IsAlive, a = false := by
  intro a ha
  rw [List.mem_map] at ha
  obtain ⟨b, hb, rfl⟩ := ha
  obtain ⟨k, hk, hkb⟩ := List.getElem_of_mem hb
  rw [← aliveAt_of_getElem? (s := s) (k := k) (by rw [List.getElem?_eq_getElem hk, hkb])]
  exact h k

theorem aliveAt_of_all_dead (s : ServerPool) (h : ∀ b ∈ s.servers, b.IsAlive = false) (j : Nat) :
    s.aliveAt j = false := by
  unfold ServerPool.aliveAt
  cases hb : s.servers[j]? with
  | none => rfl
  | some b => exact h b (List.getElem?_mem hb)

/-- The address of the member at a position is fixed by the list of addresses. -/
theorem url_of_map_eq {l1 l2 : List Server} (h : l1.map Server.URL = l2.map Server.URL)
    {i : Nat} {b1 : Server} (h1 : l1[i]? = some b1) : ∃ b2, l2[i]? = some b2 ∧ b2.URL = b1.URL := by
  have hi : (l1.map Server.URL)[i]? = some b1.URL := by simp [h1]
  rw [h, List.getElem?_map] at hi
  cases h2 : l2[i]? with
  | none => simp [h2] at hi
  | some b2 => exact ⟨b2, rfl, by simpa [h2] using hi⟩

/-- After `SetServerStatus(u, false)` the first member with address `u` is not
alive. -/
theorem aliveAt_SetServerStatus_first (s : ServerPool) (j : Nat) (b : Server)
    (hb : s.servers[j]? = some b)
    (hfirst : ∀ i b', i < j → s.servers[i]? = some b' → b'.URL.String ≠ b.URL.String) :
    (s.SetServerStatus b.URL false).aliveAt j = false := by
  have hj : j < s.servers.length := (List.getElem?_eq_some.mp hb).1
  unfold ServerPool.aliveAt
  simp only [ServerPool.SetServerStatus]
  rw [SetServerStatus_loop_set b.URL false s.servers j b hb rfl hfirst,
    List.getElem?_set_self hj]
  rfl

/-! ## Invariants of the log -/

/-- An induction principle for the log: a property `P` of logs, with a property `Q`
of the request in flight, that survives every event the request path can append,
holds of the log of every call, whether the call returns or not. -/
theorem run_trace_invariant (fwd : Forwarder) (P : List Event → Prop) (Q : Request → Prop)
    (hretry : ∀ r, Q r → GetRetryFromContext r < 3 →
      Q { r with retry := some (intSucc (GetRetryFromContext r)) })
    (hattempts : ∀ r, Q r → Q { r with attempts := some (intSucc (GetAttemptsFromContext r)) })
    (hselect : ∀ t alive j, P t → P (t ++ [Event.nextServer alive (some j)]))
    (hnone : ∀ t alive, P t → (∀ a ∈ alive, a = false) →
      P ((t ++ [Event.nextServer alive none]) ++ [Event.httpError StatusServiceUnavailable]))
    (hforward : ∀ t u r ok, P t → Q r → P (t ++ [Event.forward u r ok]))
    (hlog : ∀ t u, P t → P (t ++ [Event.logError u]))
    (hsleep : ∀ t, P t → P (t ++ [Event.sleep]))
    (hset : ∀ t u, P t → P (t ++ [Event.setServerStatus u false]))
    (hlogAttempt : ∀ t a, P t → P (t ++ [Event.logAttempt a]))
    (fuel : Nat) :
    (∀ (st : State) r, P st.trace → Q r → P (loadBalancer fwd fuel st r).state.trace)
      ∧ (∀ u (st : State) r, P st.trace → Q r → P (ServeHTTP fwd fuel u st r).state.trace)
      ∧ (∀ u (st : State) r, P st.trace → Q r → P (ErrorHandler fwd fuel u st r).state.trace) := by
  induction fuel with
  | zero =>
    refine ⟨?_, ?_, ?_⟩ <;> intros <;> simp only [loadBalancer, ServeHTTP, ErrorHandler] <;>
      assumption
  | succ fuel ih =>
    obtain ⟨ihL, ihS, ihE⟩ := ih
    refine ⟨?_, ?_, ?_⟩
    · intro st r hP hQ
      rw [loadBalancer]
      simp only []
      cases hres : (st.serverPool.NextServer).1 with
      | panic p => exact hP
      | ok o =>
        cases o with
        | none =>
          have hlen : 0 < st.serverPool.servers.length := by
            rcases Nat.eq_zero_or_pos st.serverPool.servers.length with h0 | h0
            · rw [(NextServer_empty _ h0).1] at hres
              exact Result.noConfusion hres
            · exact h0
          exact hnone _ _ hP
            (all_dead_of_aliveAt _ ((NextServer_none_iff _ hlen).mp hres))
        | some j =>
          simp only []
          cases hb : (st.serverPool.NextServer).2.servers[j]? with
          | none => exact hP
          | some b => exact ihS _ _ _ (hselect _ _ _ hP) hQ
    · intro u st r hP hQ
      rw [ServeHTTP]
      cases hok : fwd u st.forwards with
      | true => exact hforward _ _ _ _ hP hQ
      | false => exact ihE _ _ _ (hforward _ _ _ _ hP hQ) hQ
    · intro u st r hP hQ
      rw [ErrorHandler]
      have h0 : P (st.emit (Event.logError u)).trace := hlog _ _ hP
      generalize hrun : (if GetRetryFromContext r < 3 then
          ServeHTTP fwd fuel u ((st.emit (Event.logError u)).emit Event.sleep)
            { r with retry := some (intSucc (GetRetryFromContext r)) }
        else Run.returned (st.emit (Event.logError u))) = run
      have hext : P run.state.trace := by
        rw [← hrun]
        split
        · rename_i hlt
          exact ihS _ _ _ (hsleep _ h0) (hretry r hQ hlt)
        · exact h0
      cases run with
      | returned st1 =>
        exact ihL _ _ (hlogAttempt _ _ (hset _ _ hext)) (hattempts r hQ)
      | panicked p st1 => exact hext
      | outOfFuel st1 => exact hext

theorem snoc_eq_append_cons {α : Type} {t pre post : List α} {e x : α}
    (h : t ++ [e] = pre ++ x :: post) :
    (post = [] ∧ t = pre ∧ e = x) ∨ ∃ post2, post = post2 ++ [e] ∧ t = pre ++ x :: post2 := by
  rcases List.eq_nil_or_concat post with hp | ⟨post2, y, hp⟩
  · subst hp
    have h2 : t ++ [e] = pre ++ [x] := h
    obtain ⟨h3, h4⟩ := List.append_inj' h2 rfl
    exact Or.inl ⟨rfl, h3, by simpa using h4⟩
  · subst hp
    have h2 : t ++ [e] = (pre ++ x :: post2) ++ [y] := by
      rw [h]; simp
    obtain ⟨h3, h4⟩ := List.append_inj' h2 rfl
    have hy : e = y := by simpa using h4
    exact Or.inr ⟨post2, by rw [hy, List.concat_eq_append], h3⟩

theorem ErrorsOnlyOnExhaustion.snoc {t : List Event} (h : ErrorsOnlyOnExhaustion t) (e : Event)
    (he : ∀ code, e ≠ Event.httpError code) : ErrorsOnlyOnExhaustion (t ++ [e]) := by
  intro pre code post heq
  rcases snoc_eq_append_cons heq with ⟨_, _, h3⟩ | ⟨post2, _, h2⟩
  · exact absurd h3 (he code)
  · exact h pre code post2 h2

theorem ErrorsOnlyOnExhaustion.exhausted {t : List Event} (h : ErrorsOnlyOnExhaustion t)
    (alive : List Bool) (hall : ∀ a ∈ alive, a = false) :
    ErrorsOnlyOnExhaustion
      ((t ++ [Event.nextServer alive none]) ++ [Event.httpError StatusServiceUnavailable]) := by
  intro pre code post heq
  rcases snoc_eq_append_cons heq with ⟨_, h2, h3⟩ | ⟨post2, _, h2⟩
  · refine ⟨?_, t, alive, h2.symm, hall⟩
    injection h3 with h3
    rw [← h3]; rfl
  · exact (h.snoc _ (fun _ hc => Event.noConfusion hc)) pre code post2 h2

/-- Whatever the forwards do, errors are written only on pool exhaustion. -/
theorem run_errorsOnlyOnExhaustion (fwd : Forwarder) (fuel : Nat) (st : State) (r : Request)
    (h : ErrorsOnlyOnExhaustion st.trace) :
    ErrorsOnlyOnExhaustion (loadBalancer fwd fuel st r).state.trace :=
  (run_trace_invariant fwd ErrorsOnlyOnExhaustion (fun _ => True)
    (fun _ _ _ => trivial) (fun _ _ => trivial)
    (fun _ _ _ hP => hP.snoc _ (fun _ hc => Event.noConfusion hc))
    (fun _ alive hP hall => hP.exhausted alive hall)
    (fun _ _ _ _ hP _ => hP.snoc _ (fun _ hc => Event.noConfusion hc))
    (fun _ _ hP => hP.snoc _ (fun _ hc => Event.noConfusion hc))
    (fun _ hP => hP.snoc _ (fun _ hc => Event.noConfusion hc))
    (fun _ _ hP => hP.snoc _ (fun _ hc => Event.noConfusion hc))
    (fun _ _ hP => hP.snoc _ (fun _ hc => Event.noConfusion hc))
    fuel).1 st r h trivial

/-! ## The local retry -/

theorem intSucc_eq (x : Int) (hlo : -(2 ^ 63) ≤ x) (hhi : x < 2 ^ 63 - 1) : intSucc x = x + 1 := by
  unfold intSucc
  omega

theorem intSucc_ge (x : Int) : -(2 ^ 63) ≤ intSucc x := by
  unfold intSucc
  omega

/-- One forward attempt is logged, and the log is only extended after it. -/
theorem ServeHTTP_trace (fwd : Forwarder) (fuel : Nat) (u : URL) (st : State) (r : Request) :
    st.trace ++ [Event.forward u r (fwd u st.forwards)]
      <+: (ServeHTTP fwd (fuel + 1) u st r).state.trace := by
  rw [ServeHTTP]
  cases hok : fwd u st.forwards with
  | true => exact List.prefix_refl _
  | false =>
    obtain ⟨rest, hrest⟩ := ((run_extends fwd fuel).2.2 u
      (({ st with forwards := st.forwards + 1 } : State).emit (Event.forward u r false)) r).2.2.1
    exact ⟨rest, hrest.symm⟩

/-- A failed forward hands over to the error handler. -/
theorem ServeHTTP_fail (fwd : Forwarder) (fuel : Nat) (u : URL) (st : State) (r : Request)
    (h : fwd u st.forwards = false) :
    ServeHTTP fwd (fuel + 1) u st r
      = ErrorHandler fwd fuel u
          (({ st with forwards := st.forwards + 1 } : State).emit (Event.forward u r false)) r := by
  rw [ServeHTTP, h]
  rfl

/-- With a counter below 3 the error handler first re-forwards to its own backend;
what the re-forward logs stays in the log of the handler. -/
theorem ErrorHandler_retry (fwd : Forwarder) (fuel : Nat) (u : URL) (st : State) (r : Request)
    (h : GetRetryFromContext r < 3) :
    (ServeHTTP fwd fuel u ((st.emit (Event.logError u)).emit Event.sleep)
        { r with retry := some (intSucc (GetRetryFromContext r)) }).state.trace
      <+: (ErrorHandler fwd (fuel + 1) u st r).state.trace := by
  rw [ErrorHandler, if_pos h]
  generalize ServeHTTP fwd fuel u ((st.emit (Event.logError u)).emit Event.sleep)
    { r with retry := some (intSucc (GetRetryFromContext r)) } = run
  cases run with
  | returned st1 =>
    obtain ⟨rest, hrest⟩ := ((State.Extends.setServerStatus st1 u).trans
      ((State.Extends.emit _ (Event.setServerStatus u false)).trans
        ((State.Extends.emit _ (Event.logAttempt (GetAttemptsFromContext r))).trans
          ((run_extends fwd fuel).1 _
            { r with attempts := some (intSucc (GetAttemptsFromContext r)) })))).2.2.1
    exact ⟨rest, hrest.symm⟩
  | panicked p st1 => exact List.prefix_refl _
  | outOfFuel st1 => exact List.prefix_refl _

/-- With a counter of 3 or more the error handler does not re-forward: it marks its
backend and re-dispatches. -/
theorem ErrorHandler_exhausted (fwd : Forwarder) (fuel : Nat) (u : URL) (st : State) (r : Request)
    (h : ¬ GetRetryFromContext r < 3) :
    st.trace ++ [Event.logError u, Event.setServerStatus u false,
        Event.logAttempt (GetAttemptsFromContext r)]
      <+: (ErrorHandler fwd (fuel + 1) u st r).state.trace := by
  rw [ErrorHandler, if_neg h]
  obtain ⟨rest, hrest⟩ := ((run_extends fwd fuel).1
      ((({ (st.emit (Event.logError u)) with
            serverPool := (st.emit (Event.logError u)).serverPool.SetServerStatus u false } : State).emit
          (Event.setServerStatus u false)).emit (Event.logAttempt (GetAttemptsFromContext r)))
      { r with attempts := some (intSucc (GetAttemptsFromContext r)) }).2.2.1
  refine ⟨rest, ?_⟩
  rw [hrest]
  simp [State.emit]

/-- One round of the local retry: a failed forward with a counter below 3 is
followed by the handler's log line, the wait and the next forward. -/
theorem ServeHTTP_fail_round (fwd : Forwarder) (fuel : Nat) (u : URL) (st : State) (r : Request)
    (hfail : fwd u st.forwards = false) (h : GetRetryFromContext r < 3) :
    (ServeHTTP fwd fuel u
        { serverPool := st.serverPool, forwards := st.forwards + 1,
          trace := st.trace ++ [Event.forward u r false, Event.logError u, Event.sleep] }
        { r with retry := some (intSucc (GetRetryFromContext r)) }).state.trace
      <+: (ServeHTTP fwd (fuel + 2) u st r).state.trace := by
  rw [ServeHTTP_fail fwd (fuel + 1) u st r hfail]
  have := ErrorHandler_retry fwd fuel u
    (({ st with forwards := st.forwards + 1 } : State).emit (Event.forward u r false)) r h
  simpa [State.emit] using this

/-! ## Indices and the cursor -/

/-- Every index the loop inspects is an index of the pool. -/
theorem loop_inspected_lt (s : ServerPool) (index : Nat) (hN : 0 < s.servers.length)
    (n i : Nat) (seen : List Nat) (hseen : ∀ k ∈ seen, k < s.servers.length) :
    ∀ k ∈ (ServerPool.NextServer.loop s index n i seen).inspected, k < s.servers.length := by
  induction n generalizing i seen with
  | zero => simpa [ServerPool.NextServer.loop] using hseen
  | succ n ih =>
    have hlt : i % s.servers.length < s.servers.length := Nat.mod_lt _ hN
    have hseen2 : ∀ k ∈ seen ++ [i % s.servers.length], k < s.servers.length := by
      intro k hk
      rcases List.mem_append.mp hk with hk | hk
      · exact hseen k hk
      · rw [List.mem_singleton.mp hk]; exact hlt
    rw [ServerPool.NextServer.loop]
    cases hb : s.servers[i % s.servers.length]? with
    | none => simpa using hseen
    | some b =>
      cases hlive : b.IsAlive with
      | true => by_cases hi : i = index <;> simpa [hi, hlive] using hseen2
      | false =>
        simp only [hlive, Bool.false_eq_true, if_false]
        exact ih (i + 1) _ hseen2

theorem scan_inspected_lt (s : ServerPool) (hN : 0 < s.servers.length) :
    ∀ k ∈ (ServerPool.NextServer.scan s).inspected, k < s.servers.length := by
  have hscan : ServerPool.NextServer.scan s
      = ServerPool.NextServer.loop s.bumped s.start s.servers.length s.start [] := by
    simp [ServerPool.NextServer.scan, NextIndex_eq s hN, ServerPool.bumped]
  rw [hscan]
  exact loop_inspected_lt s.bumped s.start hN s.servers.length s.start [] (by simp)

/-- The selection, told by the least alive offset from the rotation start. -/
theorem NextServer_least (s : ServerPool) (hN : 0 < s.servers.length) {i : Nat}
    (hi : i < s.servers.length)
    (halive : s.aliveAt ((s.start + i) % s.servers.length) = true)
    (hleast : ∀ k, k < i → s.aliveAt ((s.start + k) % s.servers.length) = false) :
    (s.NextServer).1 = Result.ok (some ((s.start + i) % s.servers.length)) := by
  rw [NextServer_eq_spec s hN, nextLiveSpec,
    find?_range_least (fun i => s.aliveAt ((s.start + i) % s.servers.length)) hi halive hleast]
  rfl

/-- The pool after a selection, field by field. -/
theorem NextServer_pool (s : ServerPool) (hN : 0 < s.servers.length) :
    (s.NextServer).2
      = { servers := s.servers,
          current := (match (s.candidates s.start).find? s.aliveAt with
            | none => (s.current + 1) % uint64Mod
            | some j => if j ≠ s.start then j else (s.current + 1) % uint64Mod) } := by
  obtain ⟨_, h2, h3⟩ := NextServer_eq s hN
  cases hp : (s.NextServer).2 with
  | mk servers current =>
    rw [hp] at h2 h3
    simp only at h2 h3
    rw [h2, h3]

theorem HealthCheck_loop_getElem? (p : URL → Bool) (l : List Server) (j : Nat) :
    (ServerPool.HealthCheck.loop p l)[j]? = (l[j]?).map (fun b => b.SetAlive (p b.URL)) := by
  induction l generalizing j with
  | nil => rfl
  | cons a rest ih =>
    cases j with
    | zero => simp [ServerPool.HealthCheck.loop]
    | succ j => simpa [ServerPool.HealthCheck.loop] using ih j

theorem HealthCheck_loop_urls (p : URL → Bool) (l : List Server) :
    (ServerPool.HealthCheck.loop p l).map Server.URL = l.map Server.URL := by
  induction l with
  | nil => rfl
  | cons a rest ih => simp [ServerPool.HealthCheck.loop, ih, Server.SetAlive]

theorem HealthCheck_loop_length (p : URL → Bool) (l : List Server) :
    (ServerPool.HealthCheck.loop p l).length = l.length := by
  induction l with
  | nil => rfl
  | cons a rest ih => simp [ServerPool.HealthCheck.loop, ih]

/-! ## The handler falls through to the re-dispatch -/

/-- Once the retry branch of the error handler has returned, the handler marks its
backend and re-dispatches with the attempt count one up and the retry counter it
read. -/
theorem ErrorHandler_after_retry (fwd : Forwarder) (fuel : Nat) (B : URL) (st st1 : State)
    (req : Request)
    (h : (if GetRetryFromContext req < 3 then
          ServeHTTP fwd fuel B ((st.emit (Event.logError B)).emit Event.sleep)
            { req with retry := some (intSucc (GetRetryFromContext req)) }
        else Run.returned (st.emit (Event.logError B))) = Run.returned st1) :
    ErrorHandler fwd (fuel + 1) B st req
      = loadBalancer fwd fuel
          { serverPool := st1.serverPool.SetServerStatus B false,
            forwards := st1.forwards,
            trace := st1.trace ++
              [Event.setServerStatus B false, Event.logAttempt (GetAttemptsFromContext req)] }
          { attempts := some (intSucc (GetAttemptsFromContext req)), retry := req.retry } := by
  rw [ErrorHandler, h]
  simp [State.emit]

/-- With a counter of 3 or more the handler is the re-dispatch after its log line
and the marking. -/
theorem ErrorHandler_exhausted_eq (fwd : Forwarder) (fuel : Nat) (B : URL) (st : State)
    (req : Request) (h : ¬ GetRetryFromContext req < 3) :
    ErrorHandler fwd (fuel + 1) B st req
      = loadBalancer fwd fuel
          { serverPool := st.serverPool.SetServerStatus B false,
            forwards := st.forwards,
            trace := st.trace ++
              [Event.logError B, Event.setServerStatus B false,
                Event.logAttempt (GetAttemptsFromContext req)] }
          { attempts := some (intSucc (GetAttemptsFromContext req)), retry := req.retry } := by
  rw [ErrorHandler_after_retry fwd fuel B st (st.emit (Event.logError B)) req (by rw [if_neg h])]
  simp [State.emit]

/-- A selection that returns member `j` hands the request to the proxy of `j`. -/
theorem loadBalancer_select (fwd : Forwarder) (fuel : Nat) (st : State) (r : Request)
    (j : Nat) (b : Server) (hsel : (st.serverPool.NextServer).1 = Result.ok (some j))
    (hb : (st.serverPool.NextServer).2.servers[j]? = some b) :
    loadBalancer fwd (fuel + 1) st r
      = ServeHTTP fwd fuel b.URL
          { serverPool := (st.serverPool.NextServer).2,
            forwards := st.forwards,
            trace := st.trace ++
              [Event.nextServer (st.serverPool.servers.map Server.IsAlive) (some j)] } r := by
  rw [loadBalancer]
  simp [hsel, hb, State.emit]

/-- A backend whose forwards fail until the retry counter is used up: the
re-dispatch of the innermost handler starts from the pool with the backend marked,
after the failed forwards and the retry rounds, and its log stays in the log of the
whole forward. -/
theorem ServeHTTP_all_fail (fwd : Forwarder) (B : URL) (n : Nat) :
    ∀ (fuel : Nat) (st : State) (req : Request),
      GetRetryFromContext req = 3 - (n : Int) → n ≤ 3 →
      (∀ m, m ≤ n → fwd B (st.forwards + m) = false) →
      (loadBalancer fwd fuel
          { serverPool := st.serverPool.SetServerStatus B false,
            forwards := st.forwards + n + 1,
            trace := st.trace ++ [Event.forward B req false]
              ++ retryRounds B req.attempts (GetRetryFromContext req) n
              ++ [Event.logError B, Event.setServerStatus B false,
                  Event.logAttempt (GetAttemptsFromContext req)] }
          { attempts := some (intSucc (GetAttemptsFromContext req)), retry := some 3 }).state.trace
        <+: (ServeHTTP fwd (fuel + 2 * n + 2) B st req).state.trace := by
  induction n with
  | zero =>
    intro fuel st req hr _ hfail
    have hretry : req.retry = some 3 := by
      cases hq : req.retry with
      | none => simp [GetRetryFromContext, hq] at hr
      | some x => simp [GetRetryFromContext, hq] at hr; rw [hr]
    have h3 : ¬ GetRetryFromContext req < 3 := by rw [hr]; decide
    have hf := hfail 0 (Nat.le_refl 0)
    rw [Nat.add_zero] at hf
    show _ <+: (ServeHTTP fwd (fuel + 1 + 1) B st req).state.trace
    rw [ServeHTTP_fail fwd (fuel + 1) B st req hf, ErrorHandler_exhausted_eq fwd fuel B _ req h3]
    simp only [State.emit, retryRounds, hretry, List.append_nil, List.append_assoc,
      List.singleton_append, List.cons_append, List.nil_append, Nat.add_zero]
    exact List.prefix_refl _
  | succ n ih =>
    intro fuel st req hr hn hfail
    have hlt : GetRetryFromContext req < 3 := by rw [hr]; omega
    have hf := hfail 0 (Nat.zero_le _)
    rw [Nat.add_zero] at hf
    have hsucc : intSucc (GetRetryFromContext req) = GetRetryFromContext req + 1 :=
      intSucc_eq _ (by rw [hr]; omega) (by rw [hr]; omega)
    have hround := ServeHTTP_fail_round fwd (fuel + 2 * n + 2) B st req hf hlt
    have hfuel : fuel + 2 * (n + 1) + 2 = fuel + 2 * n + 2 + 2 := by omega
    rw [hfuel]
    refine List.IsPrefix.trans ?_ hround
    have hih := ih fuel
      { serverPool := st.serverPool, forwards := st.forwards + 1,
        trace := st.trace ++ [Event.forward B req false, Event.logError B, Event.sleep] }
      { req with retry := some (intSucc (GetRetryFromContext req)) }
      (by
        show intSucc (GetRetryFromContext req) = 3 - (n : Int)
        rw [hsucc, hr]; push_cast; omega)
      (by omega)
      (by
        intro m hm
        have := hfail (m + 1) (by omega)
        rw [show st.forwards + 1 + m = st.forwards + (m + 1) by omega]
        exact this)
    have hst : st.forwards + 1 + n + 1 = st.forwards + (n + 1) + 1 := by omega
    have hg : GetRetryFromContext { req with retry := some (intSucc (GetRetryFromContext req)) }
        = GetRetryFromContext req + 1 := hsucc
    have ha : GetAttemptsFromContext { req with retry := some (intSucc (GetRetryFromContext req)) }
        = GetAttemptsFromContext req := rfl
    rw [hg, ha] at hih
    simp only [hst, hsucc] at hih
    simpa [retryRounds, List.append_assoc, hsucc] using hih

/-! ## A pool of one member -/

theorem NextServer_singleton_alive (A : URL) (c : Nat) :
    (ServerPool.mk [⟨A, true⟩] c).NextServer
      = (Result.ok (some 0), ServerPool.mk [⟨A, true⟩] ((c + 1) % uint64Mod)) := by
  simp [ServerPool.NextServer, ServerPool.NextServer.scan, ServerPool.NextIndex,
    ServerPool.NextServer.loop, Nat.mod_one, Server.IsAlive]

theorem NextServer_singleton_dead (A : URL) (c : Nat) :
    (ServerPool.mk [⟨A, false⟩] c).NextServer
      = (Result.ok none, ServerPool.mk [⟨A, false⟩] ((c + 1) % uint64Mod)) := by
  simp [ServerPool.NextServer, ServerPool.NextServer.scan, ServerPool.NextIndex,
    ServerPool.NextServer.loop, Nat.mod_one, Server.IsAlive]

theorem SetServerStatus_singleton (A : URL) (v : Bool) (c : Nat) :
    (ServerPool.mk [⟨A, v⟩] c).SetServerStatus A false = ServerPool.mk [⟨A, false⟩] c := by
  simp [ServerPool.SetServerStatus, ServerPool.SetServerStatus.loop, Server.SetAlive]

/-! ## Distinct addresses, the alive set and failed forwards -/

/-- With pairwise distinct URL strings every member is the first with its address. -/
theorem ServerPool.Distinct.first {s : ServerPool} (h : s.Distinct) {j : Nat} {b : Server}
    (hb : s.servers[j]? = some b) :
    ∀ i b', i < j → s.servers[i]? = some b' → b'.URL.String ≠ b.URL.String := by
  intro i b' hi hb' heq
  have hj : j < (s.servers.map (fun b => b.URL.String)).length := by
    rw [List.length_map]; exact (List.getElem?_eq_some.mp hb).1
  have := (List.nodup_iff_getElem?_ne_getElem?.mp h) i j hi hj
  apply this
  rw [List.getElem?_map, List.getElem?_map, hb, hb']
  simp [heq]

theorem ServerPool.Distinct.unique {s : ServerPool} (h : s.Distinct) {i j : Nat} {b b' : Server}
    (hb : s.servers[j]? = some b) (hb' : s.servers[i]? = some b') (heq : b'.URL = b.URL) :
    i = j := by
  rcases Nat.lt_trichotomy i j with hlt | heq2 | hgt
  · exact absurd (by rw [heq]) (h.first hb i b' hlt hb')
  · exact heq2
  · exact absurd (by rw [heq]) (h.first hb' j b hgt hb)

theorem ServerPool.Distinct.of_urls {s s2 : ServerPool} (h : s.Distinct)
    (hurls : s2.servers.map Server.URL = s.servers.map Server.URL) : s2.Distinct := by
  unfold ServerPool.Distinct at h ⊢
  have e : ∀ l : List Server, l.map (fun b => b.URL.String)
      = (l.map Server.URL).map URL.String := by
    intro l; simp [Function.comp_def]
  rw [e, hurls, ← e]
  exact h

/-- Marking the first member with an address: that member is not alive afterwards,
the liveness of every other member is as before. -/
theorem aliveAt_mark (s : ServerPool) (j : Nat) (b : Server) (hb : s.servers[j]? = some b)
    (hfirst : ∀ i b', i < j → s.servers[i]? = some b' → b'.URL.String ≠ b.URL.String)
    (k : Nat) :
    (s.SetServerStatus b.URL false).aliveAt k = (decide (k ≠ j) && s.aliveAt k) := by
  have hj : j < s.servers.length := (List.getElem?_eq_some.mp hb).1
  unfold ServerPool.aliveAt
  simp only [ServerPool.SetServerStatus]
  rw [SetServerStatus_loop_set b.URL false s.servers j b hb rfl hfirst]
  by_cases hk : k = j
  · subst hk
    rw [List.getElem?_set_self hj]
    simp [Server.IsAlive, Server.SetAlive]
  · rw [List.getElem?_set_ne (Ne.symm hk)]
    simp [hk]

theorem mem_aliveSet (s : ServerPool) (k : Nat) : k ∈ s.aliveSet ↔ s.aliveAt k = true := by
  unfold ServerPool.aliveSet
  rw [Finset.mem_filter, Finset.mem_range]
  exact ⟨fun h => h.2, fun h => ⟨aliveAt_lt s h, h⟩⟩

theorem aliveSet_mark (s : ServerPool) (j : Nat) (b : Server) (hb : s.servers[j]? = some b)
    (hfirst : ∀ i b', i < j → s.servers[i]? = some b' → b'.URL.String ≠ b.URL.String) :
    (s.SetServerStatus b.URL false).aliveSet = s.aliveSet.erase j := by
  ext k
  rw [mem_aliveSet, aliveAt_mark s j b hb hfirst, Finset.mem_erase, mem_aliveSet]
  simp

theorem aliveSet_card_le (s : ServerPool) : s.aliveSet.card ≤ s.servers.length := by
  unfold ServerPool.aliveSet
  exact (Finset.card_filter_le _ _).trans (by rw [Finset.card_range])

theorem aliveSet_subset_of_extends {st st2 : State} (h : st.Extends st2) :
    st2.serverPool.aliveSet ⊆ st.serverPool.aliveSet := by
  intro k hk
  rw [mem_aliveSet] at hk ⊢
  exact h.2.1 k hk

theorem urlAlive_of_extends {st st2 : State} (h : st.Extends st2) {u : URL}
    (ha : st2.urlAlive u) : st.urlAlive u := by
  obtain ⟨j, b2, hb2, hu, hlive⟩ := ha
  obtain ⟨b, hb, hbu⟩ := url_of_map_eq h.1 hb2
  refine ⟨j, b, hb, by rw [hbu, hu], ?_⟩
  have h1 : st2.serverPool.aliveAt j = true := by rw [aliveAt_of_getElem? hb2]; exact hlive
  have h2 := h.2.1 j h1
  rwa [aliveAt_of_getElem? hb] at h2

/-- In a pool with distinct addresses, no member with the marked address is alive
after the marking. -/
theorem not_urlAlive_mark (st : State) (hd : st.serverPool.Distinct) (j : Nat) (b : Server)
    (hb : st.serverPool.servers[j]? = some b) (st2 : State)
    (h2 : st2.serverPool = st.serverPool.SetServerStatus b.URL false) :
    ¬ st2.urlAlive b.URL := by
  rintro ⟨i, b2, hb2, hu, hlive⟩
  rw [h2] at hb2
  have hurls := SetServerStatus_loop_urls b.URL false st.serverPool.servers
  obtain ⟨b0, hb0, hbu⟩ := @url_of_map_eq (st.serverPool.SetServerStatus b.URL false).servers
    st.serverPool.servers hurls i b2 hb2
  have hij : i = j := hd.unique hb hb0 (by rw [hbu, hu])
  subst hij
  have hdead := aliveAt_mark st.serverPool i b hb (hd.first hb) i
  rw [aliveAt_of_getElem? hb2, hlive] at hdead
  simp at hdead

theorem failedForwards_append (u : URL) (t1 t2 : List Event) :
    failedForwards u (t1 ++ t2) = failedForwards u t1 + failedForwards u t2 := by
  simp [failedForwards, List.filter_append]

theorem failedForwards_le_of_extends {st st2 : State} (h : st.Extends st2) (u : URL) :
    failedForwards u st.trace ≤ failedForwards u st2.trace := by
  obtain ⟨rest, hrest⟩ := h.2.2.1
  rw [hrest, failedForwards_append]
  exact Nat.le_add_right _ _

/-- A step that adds no failed forward to `u` is harmless for `u`. -/
theorem FailOK.of_eq {u : URL} {st st2 : State}
    (h : failedForwards u st2.trace = failedForwards u st.trace) : FailOK u st st2 :=
  ⟨fun _ => h, by omega, fun hlt => absurd hlt (by omega)⟩

/-- Handling in sequence: what holds for `u` over two stretches holds over both. -/
theorem FailOK.andThen {u : URL} {a b c : State} (hab : a.Extends b)
    (h1 : FailOK u a b) (h2 : FailOK u b c) (hbc : b.Extends c) : FailOK u a c := by
  obtain ⟨p1, q1, r1⟩ := h1
  obtain ⟨p2, q2, r2⟩ := h2
  have m1 := failedForwards_le_of_extends hab u
  have m2 := failedForwards_le_of_extends hbc u
  refine ⟨?_, ?_, ?_⟩
  · intro hna
    have hnb : ¬ b.urlAlive u := fun hb => hna (urlAlive_of_extends hab hb)
    rw [p2 hnb, p1 hna]
  · by_cases hlt : failedForwards u a.trace < failedForwards u b.trace
    · rw [p2 (r1 hlt)]; exact q1
    · have : failedForwards u b.trace = failedForwards u a.trace := by omega
      rw [← this]; exact q2
  · intro hlt
    by_cases hlt1 : failedForwards u a.trace < failedForwards u b.trace
    · exact fun hc => r1 hlt1 (urlAlive_of_extends hbc hc)
    · exact r2 (by omega)

/-! ## Termination of the dispatch -/

theorem ServeHTTP_ok (fwd : Forwarder) (fuel : Nat) (u : URL) (st : State) (r : Request)
    (h : fwd u st.forwards = true) :
    ServeHTTP fwd (fuel + 1) u st r
      = Run.returned
          (({ st with forwards := st.forwards + 1 } : State).emit (Event.forward u r true)) := by
  rw [ServeHTTP, h]
  rfl

theorem failedForwards_emit_forward (u target : URL) (st : State) (r : Request) (ok : Bool) :
    failedForwards u (st.emit (Event.forward target r ok)).trace
      = failedForwards u st.trace + (if target = u ∧ ok = false then 1 else 0) := by
  simp only [State.emit, failedForwards_append]
  congr 1
  by_cases ht : target = u <;> cases ok <;>
    simp [failedForwards, Event.isFailedForwardTo, ht]

theorem failedForwards_emit_other (u : URL) (st : State) (e : Event)
    (he : e.isFailedForwardTo u = false) :
    failedForwards u (st.emit e).trace = failedForwards u st.trace := by
  simp [State.emit, failedForwards_append, failedForwards, List.filter, he]

/-- The part of the error handler after its retry branch: it marks its backend, which
then has no alive member, and the re-dispatch completes when every dispatch on a
pool with at most `k` alive members does. -/
theorem ErrorHandler_finish (fwd : Forwarder) (k : Nat)
    (hLB : ∀ (st : State) (r : Request) (fuel : Nat), st.serverPool.Distinct →
      0 < st.serverPool.servers.length → st.serverPool.aliveSet.card ≤ k →
      0 ≤ GetRetryFromContext r → 9 * k + 1 ≤ fuel →
      ∃ st2, loadBalancer fwd fuel st r = Run.returned st2 ∧ Handled st st2)
    (fuel : Nat) (B : URL) (st st1 : State) (req : Request) (j : Nat) (b : Server)
    (hrun : (if GetRetryFromContext req < 3 then
          ServeHTTP fwd fuel B ((st.emit (Event.logError B)).emit Event.sleep)
            { req with retry := some (intSucc (GetRetryFromContext req)) }
        else Run.returned (st.emit (Event.logError B))) = Run.returned st1)
    (hd : st1.serverPool.Distinct) (hb : st1.serverPool.servers[j]? = some b) (hbu : b.URL = B)
    (hcard : (st1.serverPool.aliveSet.erase j).card ≤ k)
    (hr : 0 ≤ GetRetryFromContext req) (hfuel : 9 * k + 1 ≤ fuel) :
    ∃ st2, ErrorHandler fwd (fuel + 1) B st req = Run.returned st2
      ∧ st1.Extends st2
      ∧ (∀ u, u ≠ B → FailOK u st1 st2)
      ∧ failedForwards B st2.trace = failedForwards B st1.trace
      ∧ ¬ st2.urlAlive B := by
  subst hbu
  rw [ErrorHandler_after_retry fwd fuel b.URL st st1 req hrun]
  obtain ⟨st4, hst4⟩ : ∃ st4 : State, st4 = State.mk
      (st1.serverPool.SetServerStatus b.URL false) st1.forwards
      (st1.trace ++ [Event.setServerStatus b.URL false,
        Event.logAttempt (GetAttemptsFromContext req)]) := ⟨_, rfl⟩
  rw [← hst4]
  have hpool : st4.serverPool = st1.serverPool.SetServerStatus b.URL false := by
    rw [hst4]
  have htrace : st4.trace = st1.trace ++ [Event.setServerStatus b.URL false,
      Event.logAttempt (GetAttemptsFromContext req)] := by rw [hst4]
  have hurls : st4.serverPool.servers.map Server.URL = st1.serverPool.servers.map Server.URL := by
    rw [hpool]; exact SetServerStatus_loop_urls b.URL false st1.serverPool.servers
  have hext : st1.Extends st4 := by
    refine ⟨hurls, ?_, ⟨_, htrace⟩, by rw [hst4]⟩
    intro i hi
    rw [hpool] at hi
    exact aliveAt_SetServerStatus_false st1.serverPool b.URL i hi
  have hlen : 0 < st4.serverPool.servers.length := by
    have h1 := congrArg List.length hurls
    rw [List.length_map, List.length_map] at h1
    have := (List.getElem?_eq_some.mp hb).1
    omega
  have hcard4 : st4.serverPool.aliveSet.card ≤ k := by
    rw [hpool, aliveSet_mark st1.serverPool j b hb (hd.first hb)]
    exact hcard
  obtain ⟨st2, hret, hext2, hfail⟩ := hLB st4
    { attempts := some (intSucc (GetAttemptsFromContext req)), retry := req.retry } fuel
    (hd.of_urls hurls) hlen hcard4 hr hfuel
  have hdead4 : ¬ st4.urlAlive b.URL := not_urlAlive_mark st1 hd j b hb st4 hpool
  have hcount : ∀ u, failedForwards u st4.trace = failedForwards u st1.trace := by
    intro u
    rw [htrace, failedForwards_append]
    simp [failedForwards, List.filter, Event.isFailedForwardTo]
  refine ⟨st2, hret, hext.trans hext2, ?_, ?_, ?_⟩
  · intro u _
    exact FailOK.andThen hext (FailOK.of_eq (hcount u)) (hfail u) hext2
  · rw [(hfail b.URL).1 hdead4, hcount]
  · exact fun h => hdead4 (urlAlive_of_extends hext2 h)

/-- A forward to `B` and all that follows from it complete when every dispatch on a
pool with at most `k` alive members does; `B` suffers at most `n + 1` failed
forwards when its request allows `n` more local retries. -/
theorem ServeHTTP_handled (fwd : Forwarder) (k : Nat)
    (hLB : ∀ (st : State) (r : Request) (fuel : Nat), st.serverPool.Distinct →
      0 < st.serverPool.servers.length → st.serverPool.aliveSet.card ≤ k →
      0 ≤ GetRetryFromContext r → 9 * k + 1 ≤ fuel →
      ∃ st2, loadBalancer fwd fuel st r = Run.returned st2 ∧ Handled st st2)
    (n : Nat) :
    ∀ (fuel : Nat) (B : URL) (st : State) (req : Request) (j : Nat) (b : Server),
      st.serverPool.Distinct → st.serverPool.servers[j]? = some b → b.URL = B →
      (st.serverPool.aliveSet.erase j).card ≤ k →
      0 ≤ GetRetryFromContext req → 3 ≤ GetRetryFromContext req + (n : Int) →
      9 * k + 3 + 2 * n ≤ fuel →
      ∃ st2, ServeHTTP fwd fuel B st req = Run.returned st2
        ∧ st.Extends st2
        ∧ (∀ u, u ≠ B → FailOK u st st2)
        ∧ failedForwards B st2.trace ≤ failedForwards B st.trace + (n + 1)
        ∧ (failedForwards B st.trace < failedForwards B st2.trace → ¬ st2.urlAlive B) := by
  induction n with
  | zero =>
    intro fuel B st req j b hd hb hbu hcard hr hrem hfuel
    obtain ⟨f, rfl⟩ : ∃ f, fuel = f + 1 + 1 := ⟨fuel - 2, by omega⟩
    cases hok : fwd B st.forwards with
    | true =>
      rw [ServeHTTP_ok fwd (f + 1) B st req hok]
      have hc : ∀ u, failedForwards u
          (({ st with forwards := st.forwards + 1 } : State).emit (Event.forward B req true)).trace
          = failedForwards u st.trace := by
        intro u
        rw [failedForwards_emit_forward]
        simp
      exact ⟨_, rfl, (State.Extends.forward st).trans (State.Extends.emit _ _),
        fun u _ => FailOK.of_eq (hc u), by rw [hc]; omega, fun h => absurd h (by rw [hc]; omega)⟩
    | false =>
      rw [ServeHTTP_fail fwd (f + 1) B st req hok]
      have h3 : ¬ GetRetryFromContext req < 3 := by
        have : (3 : Int) ≤ GetRetryFromContext req := by simpa using hrem
        omega
      have hext1 : st.Extends ((({ st with forwards := st.forwards + 1 } : State).emit
          (Event.forward B req false)).emit (Event.logError B)) :=
        (State.Extends.forward st).trans ((State.Extends.emit _ _).trans (State.Extends.emit _ _))
      have hc : ∀ u, failedForwards u ((({ st with forwards := st.forwards + 1 } : State).emit
          (Event.forward B req false)).emit (Event.logError B)).trace
          = failedForwards u st.trace + (if B = u then 1 else 0) := by
        intro u
        rw [failedForwards_emit_other u _ (Event.logError B) rfl, failedForwards_emit_forward]
        simp
      obtain ⟨st2, hret, hext2, hothers, hB, hdead⟩ := ErrorHandler_finish fwd k hLB f B
        (({ st with forwards := st.forwards + 1 } : State).emit (Event.forward B req false))
        ((({ st with forwards := st.forwards + 1 } : State).emit
          (Event.forward B req false)).emit (Event.logError B))
        req j b (by rw [if_neg h3]) hd hb hbu hcard hr (by omega)
      refine ⟨st2, hret, hext1.trans hext2, ?_, ?_, fun _ => hdead⟩
      · intro u hu
        exact FailOK.andThen hext1
          (FailOK.of_eq (by rw [hc u, if_neg (fun h => hu h.symm)]; rfl)) (hothers u hu) hext2
      · rw [hB, hc B]
        simp
  | succ n ih =>
    intro fuel B st req j b hd hb hbu hcard hr hrem hfuel
    obtain ⟨f, rfl⟩ : ∃ f, fuel = f + 1 + 1 := ⟨fuel - 2, by omega⟩
    cases hok : fwd B st.forwards with
    | true =>
      rw [ServeHTTP_ok fwd (f + 1) B st req hok]
      have hc : ∀ u, failedForwards u
          (({ st with forwards := st.forwards + 1 } : State).emit (Event.forward B req true)).trace
          = failedForwards u st.trace := by
        intro u
        rw [failedForwards_emit_forward]
        simp
      exact ⟨_, rfl, (State.Extends.forward st).trans (State.Extends.emit _ _),
        fun u _ => FailOK.of_eq (hc u), by rw [hc]; omega, fun h => absurd h (by rw [hc]; omega)⟩
    | false =>
      rw [ServeHTTP_fail fwd (f + 1) B st req hok]
      have hc1 : ∀ u, failedForwards u (({ st with forwards := st.forwards + 1 } : State).emit
          (Event.forward B req false)).trace
          = failedForwards u st.trace + (if B = u then 1 else 0) := by
        intro u
        rw [failedForwards_emit_forward]
        simp
      by_cases h3 : GetRetryFromContext req < 3
      · -- the local retry
        have hsucc : intSucc (GetRetryFromContext req) = GetRetryFromContext req + 1 :=
          intSucc_eq _ (by omega) (by omega)
        have hext2 : st.Extends (((({ st with forwards := st.forwards + 1 } : State).emit
            (Event.forward B req false)).emit (Event.logError B)).emit Event.sleep) :=
          (State.Extends.forward st).trans ((State.Extends.emit _ _).trans
            ((State.Extends.emit _ _).trans (State.Extends.emit _ _)))
        have hc2 : ∀ u, failedForwards u (((({ st with forwards := st.forwards + 1 } : State).emit
            (Event.forward B req false)).emit (Event.logError B)).emit Event.sleep).trace
            = failedForwards u st.trace + (if B = u then 1 else 0) := by
          intro u
          rw [← hc1 u, failedForwards_emit_other u _ Event.sleep rfl,
            failedForwards_emit_other u _ (Event.logError B) rfl]
        obtain ⟨st3, hret3, hext3, hothers3, hB3, _⟩ := ih f B
          (((({ st with forwards := st.forwards + 1 } : State).emit
            (Event.forward B req false)).emit (Event.logError B)).emit Event.sleep)
          { req with retry := some (intSucc (GetRetryFromContext req)) } j b hd hb hbu hcard
          (by show 0 ≤ intSucc (GetRetryFromContext req); rw [hsucc]; omega)
          (by
            show 3 ≤ intSucc (GetRetryFromContext req) + (n : Int)
            rw [hsucc]; push_cast at hrem; omega)
          (by omega)
        have hurls3 := hext3.1
        obtain ⟨b3, hb3, hbu3⟩ := @url_of_map_eq st.serverPool.servers
          st3.serverPool.servers hurls3.symm j b hb
        have hcard3 : (st3.serverPool.aliveSet.erase j).card ≤ k :=
          (Finset.card_le_card
            (Finset.erase_subset_erase j (aliveSet_subset_of_extends hext3))).trans hcard
        obtain ⟨st2, hret, hext4, hothers, hB, hdead⟩ := ErrorHandler_finish fwd k hLB f B
          (({ st with forwards := st.forwards + 1 } : State).emit (Event.forward B req false))
          st3 req j b3 (by rw [if_pos h3]; exact hret3)
          (ServerPool.Distinct.of_urls hd hurls3) hb3 (by rw [hbu3, hbu]) hcard3 hr (by omega)
        refine ⟨st2, hret, hext2.trans (hext3.trans hext4), ?_, ?_, fun _ => hdead⟩
        · intro u hu
          exact FailOK.andThen hext2
            (FailOK.of_eq (by rw [hc2 u, if_neg (fun h => hu h.symm)]; rfl))
            (FailOK.andThen hext3 (hothers3 u hu) (hothers u hu) hext4) (hext3.trans hext4)
        · rw [hB]
          have := hc2 B
          simp only [if_true] at this
          omega
      · -- no local retry left
        have hext1 : st.Extends ((({ st with forwards := st.forwards + 1 } : State).emit
            (Event.forward B req false)).emit (Event.logError B)) :=
          (State.Extends.forward st).trans ((State.Extends.emit _ _).trans (State.Extends.emit _ _))
        have hc : ∀ u, failedForwards u ((({ st with forwards := st.forwards + 1 } : State).emit
            (Event.forward B req false)).emit (Event.logError B)).trace
            = failedForwards u st.trace + (if B = u then 1 else 0) := by
          intro u
          rw [← hc1 u, failedForwards_emit_other u _ (Event.logError B) rfl]
        obtain ⟨st2, hret, hext2, hothers, hB, hdead⟩ := ErrorHandler_finish fwd k hLB f B
          (({ st with forwards := st.forwards + 1 } : State).emit (Event.forward B req false))
          ((({ st with forwards := st.forwards + 1 } : State).emit
            (Event.forward B req false)).emit (Event.logError B))
          req j b (by rw [if_neg h3]) hd hb hbu hcard hr (by omega)
        refine ⟨st2, hret, hext1.trans hext2, ?_, ?_, fun _ => hdead⟩
        · intro u hu
          exact FailOK.andThen hext1
            (FailOK.of_eq (by rw [hc u, if_neg (fun h => hu h.symm)]; rfl)) (hothers u hu) hext2
        · rw [hB, hc B]
          simp

/-- Handling a request on a pool with pairwise distinct addresses and at most `k`
alive members returns within a budget of `9 * k + 1` nested calls, and treats every
backend as `Handled` says. -/
theorem loadBalancer_handled (fwd : Forwarder) (k : Nat) :
    ∀ (st : State) (r : Request) (fuel : Nat), st.serverPool.Distinct →
      0 < st.serverPool.servers.length → st.serverPool.aliveSet.card ≤ k →
      0 ≤ GetRetryFromContext r → 9 * k + 1 ≤ fuel →
      ∃ st2, loadBalancer fwd fuel st r = Run.returned st2 ∧ Handled st st2 := by
  induction k with
  | zero =>
    intro st r fuel hd hN hcard hr hfuel
    obtain ⟨f, rfl⟩ : ∃ f, fuel = f + 1 := ⟨fuel - 1, by omega⟩
    have hnone : (st.serverPool.NextServer).1 = Result.ok none := by
      rw [NextServer_none_iff _ hN]
      intro j
      cases hal : st.serverPool.aliveAt j with
      | false => rfl
      | true =>
        have hmem := (mem_aliveSet st.serverPool j).mpr hal
        have hpos : 0 < st.serverPool.aliveSet.card := Finset.card_pos.mpr ⟨j, hmem⟩
        omega
    rw [loadBalancer]
    simp only [hnone]
    refine ⟨_, rfl, ?_, ?_⟩
    · exact (State.Extends.nextServer_any st).trans
        ((State.Extends.emit _ _).trans (State.Extends.emit _ _))
    · intro u
      apply FailOK.of_eq
      rw [failedForwards_emit_other u _ (Event.httpError StatusServiceUnavailable) rfl,
        failedForwards_emit_other u _ (Event.nextServer _ none) rfl]
  | succ k ih =>
    intro st r fuel hd hN hcard hr hfuel
    obtain ⟨f, rfl⟩ : ∃ f, fuel = f + 1 := ⟨fuel - 1, by omega⟩
    obtain ⟨res, hres⟩ := NextServer_ok st.serverPool hN
    have hserv := (NextServer_eq st.serverPool hN).2.1
    cases res with
    | none =>
      rw [loadBalancer]
      simp only [hres]
      refine ⟨_, rfl, ?_, ?_⟩
      · exact (State.Extends.nextServer_any st).trans
          ((State.Extends.emit _ _).trans (State.Extends.emit _ _))
      · intro u
        apply FailOK.of_eq
        rw [failedForwards_emit_other u _ (Event.httpError StatusServiceUnavailable) rfl,
          failedForwards_emit_other u _ (Event.nextServer _ none) rfl]
    | some j =>
      have halive : st.serverPool.aliveAt j = true := NextServer_some_alive _ hN hres
      obtain ⟨b, hb, hblive⟩ := (aliveAt_iff st.serverPool).mp halive
      have hb1 : (st.serverPool.NextServer).2.servers[j]? = some b := by rw [hserv]; exact hb
      rw [loadBalancer_select fwd f st r j b hres hb1]
      obtain ⟨st1, hst1⟩ : ∃ st1 : State, st1 = State.mk (st.serverPool.NextServer).2 st.forwards
          (st.trace ++ [Event.nextServer (st.serverPool.servers.map Server.IsAlive) (some j)]) :=
        ⟨_, rfl⟩
      rw [← hst1]
      have hpool1 : st1.serverPool = (st.serverPool.NextServer).2 := by rw [hst1]
      have hext1 : st.Extends st1 := by
        rw [hst1]
        exact (State.Extends.nextServer_any st).trans (State.Extends.emit _ _)
      have hcount1 : ∀ u, failedForwards u st1.trace = failedForwards u st.trace := by
        intro u
        rw [hst1]
        simp [failedForwards_append, failedForwards, List.filter, Event.isFailedForwardTo]
      have hset1 : st1.serverPool.aliveSet = st.serverPool.aliveSet := by
        ext i
        rw [mem_aliveSet, mem_aliveSet, hpool1, NextServer_aliveAt _ hN]
      have hcard1 : (st1.serverPool.aliveSet.erase j).card ≤ k := by
        rw [hset1, Finset.card_erase_of_mem ((mem_aliveSet _ j).mpr halive)]
        omega
      obtain ⟨st2, hret, hext2, hothers, hB, hdead⟩ := ServeHTTP_handled fwd k ih 3 f b.URL st1 r
        j b (hd.of_urls (by rw [hpool1, hserv])) (by rw [hpool1]; exact hb1) rfl hcard1 hr
        (by push_cast; omega) (by omega)
      refine ⟨st2, hret, hext1.trans hext2, ?_⟩
      intro u
      by_cases hu : u = b.URL
      · subst hu
        refine ⟨fun hna => absurd ⟨j, b, hb, rfl, hblive⟩ hna, ?_, ?_⟩
        · rw [← hcount1]; exact hB
        · intro hlt
          exact hdead (by rw [hcount1]; exact hlt)
      · exact FailOK.andThen hext1 (FailOK.of_eq (hcount1 u)) (hothers u hu) hext2

/-! ## Failover to the next member -/

/-- A selection whose rotation starts at the member after `X`, or at `X` itself
when `X` is not alive, returns the member after `X` when that one is alive. -/
theorem NextServer_after_skip (s : ServerPool) (hN : 0 < s.servers.length) (X : Nat)
    (hX : X < s.servers.length) (hdead : s.aliveAt X = false)
    (hnext : s.aliveAt ((X + 1) % s.servers.length) = true)
    (hstart : s.start = (X + 1) % s.servers.length ∨ s.start = X) :
    (s.NextServer).1 = Result.ok (some ((X + 1) % s.servers.length)) := by
  rcases hstart with hs | hs
  · have h := NextServer_least s hN (i := 0) hN
      (by rw [Nat.add_zero, hs, Nat.mod_mod]; exact hnext)
      (fun k hk => absurd hk (Nat.not_lt_zero k))
    rw [h, Nat.add_zero, hs, Nat.mod_mod]
  · have h1 : 1 < s.servers.length := by
      rcases Nat.lt_or_ge 1 s.servers.length with h | h
      · exact h
      · exfalso
        have hlen : s.servers.length = 1 := by omega
        have hX0 : X = 0 := by omega
        rw [hlen, hX0] at hnext
        rw [hX0] at hdead
        simp only [Nat.zero_add, Nat.mod_self] at hnext
        rw [hdead] at hnext
        exact Bool.noConfusion hnext
    have h := NextServer_least s hN (i := 1) h1
      (by rw [hs]; exact hnext)
      (fun k hk => by
        have hk0 : k = 0 := by omega
        rw [hk0, Nat.add_zero, hs, Nat.mod_eq_of_lt hX]
        exact hdead)
    rw [h, hs]

/-! ## Two members with one address: the handling does not return -/

theorem twinStuck_url {x : URL} {st : State} (h : st.TwinStuck x) {j : Nat} {b : Server}
    (hb : st.serverPool.servers[j]? = some b) : b.URL = x := by
  rcases h with h | h <;> rw [h] at hb <;>
    (rcases j with _ | _ | j <;> simp at hb <;> (try rw [← hb]))

theorem twinStuck_alive {x : URL} {st : State} (h : st.TwinStuck x) :
    st.serverPool.aliveAt 1 = true := by
  rcases h with h | h <;> simp [ServerPool.aliveAt, h, Server.IsAlive]

theorem twinStuck_mark {x : URL} {st : State} (h : st.TwinStuck x) :
    (st.serverPool.SetServerStatus x false).servers = [⟨x, false⟩, ⟨x, true⟩] := by
  rcases h with h | h <;>
    simp [ServerPool.SetServerStatus, ServerPool.SetServerStatus.loop, h, Server.SetAlive]

/-- On such a pool, with every forward failing, no call on the request path
returns, whatever the budget of nested calls and whatever the request carries. -/
theorem twin_never_returns (fwd : Forwarder) (x : URL) (hfail : ∀ n, fwd x n = false)
    (fuel : Nat) :
    (∀ (st : State) r, st.TwinStuck x → ∀ st2, loadBalancer fwd fuel st r ≠ Run.returned st2)
      ∧ (∀ (st : State) r, st.TwinStuck x → ∀ st2, ServeHTTP fwd fuel x st r ≠ Run.returned st2)
      ∧ (∀ (st : State) r, st.TwinStuck x →
          ∀ st2, ErrorHandler fwd fuel x st r ≠ Run.returned st2) := by
  induction fuel with
  | zero =>
    refine ⟨?_, ?_, ?_⟩ <;> intro st r _ st2 <;>
      simp [loadBalancer, ServeHTTP, ErrorHandler]
  | succ fuel ih =>
    obtain ⟨ihL, ihS, ihE⟩ := ih
    refine ⟨?_, ?_, ?_⟩
    · intro st r hst st2
      have hN : 0 < st.serverPool.servers.length := by
        rcases hst with h | h <;> rw [h] <;> simp
      obtain ⟨res, hres⟩ := NextServer_ok st.serverPool hN
      have hserv := (NextServer_eq st.serverPool hN).2.1
      cases res with
      | none =>
        have := (NextServer_none_iff _ hN).mp hres 1
        rw [twinStuck_alive hst] at this
        exact Bool.noConfusion this
      | some j =>
        have halive : st.serverPool.aliveAt j = true := NextServer_some_alive _ hN hres
        obtain ⟨b, hb, _⟩ := (aliveAt_iff st.serverPool).mp halive
        have hb1 : (st.serverPool.NextServer).2.servers[j]? = some b := by rw [hserv]; exact hb
        rw [loadBalancer_select fwd fuel st r j b hres hb1, twinStuck_url hst hb]
        apply ihS
        show (st.serverPool.NextServer).2.servers = _ ∨ (st.serverPool.NextServer).2.servers = _
        rw [hserv]
        exact hst
    · intro st r hst st2
      rw [ServeHTTP_fail fwd fuel x st r (hfail _)]
      refine ihE _ _ ?_ st2
      exact hst
    · intro st r hst st2
      rw [ErrorHandler]
      by_cases h3 : GetRetryFromContext r < 3
      · rw [if_pos h3]
        generalize hrun : ServeHTTP fwd fuel x ((st.emit (Event.logError x)).emit Event.sleep)
          { r with retry := some (intSucc (GetRetryFromContext r)) } = run
        cases run with
        | returned st1 =>
          refine absurd hrun (ihS _ _ ?_ st1)
          exact hst
        | panicked p st1 => simp
        | outOfFuel st1 => simp
      · rw [if_neg h3]
        exact ihL _ _ (Or.inr (twinStuck_mark hst)) st2

/-! ## The claims -/

/-- C1. On a non-empty pool: if some member is alive, `NextServer` returns a member;
every member it returns is alive when it is called; hence after `SetAlive(false)` on
the member at position `j`, no later `NextServer` call returns `j` as long as no
`SetAlive(true)` intervenes. -/
theorem C1_NextServer_returns_alive (s : ServerPool) (hN : s.servers ≠ []) :
    ((∃ b ∈ s.servers, b.IsAlive = true) → ∃ j, (s.NextServer).1 = Result.ok (some j))
      ∧ (∀ j, (s.NextServer).1 = Result.ok (some j) →
          ∃ b, s.servers[j]? = some b ∧ b.IsAlive = true)
      ∧ (∀ j n, Result.ok (some j) ∉ ((s.setAliveAt j false).NextServerTimes n).1) := by
  have hlen : 0 < s.servers.length := List.length_pos.mpr hN
  refine ⟨?_, ?_, ?_⟩
  · rintro ⟨b, hb, hlive⟩
    obtain ⟨r, hr⟩ := NextServer_ok s hlen
    cases r with
    | some j => exact ⟨j, hr⟩
    | none =>
      exfalso
      obtain ⟨k, hk, hkb⟩ := List.getElem_of_mem hb
      have hk2 : s.servers[k]? = some b := by rw [List.getElem?_eq_getElem hk, hkb]
      have := (NextServer_none_iff s hlen).mp hr k
      rw [aliveAt_of_getElem? hk2, hlive] at this
      exact Bool.noConfusion this
  · intro j hj
    exact (aliveAt_iff s).mp (NextServer_some_alive s hlen hj)
  · intro j n hmem
    have hlen2 : 0 < (s.setAliveAt j false).servers.length := by
      rw [length_setAliveAt]; exact hlen
    have := (NextServerTimes_alive n _ hlen2).2 j hmem
    rw [aliveAt_setAliveAt_self] at this
    exact Bool.noConfusion this

/-- C1, on the pool `[dead, alive, alive]` with cursor 0. -/
theorem C1_NextServer_returns_alive_witness :
    ((∃ b ∈ (mkPool [false, true, true] 0).servers, b.IsAlive = true) →
        ∃ j, ((mkPool [false, true, true] 0).NextServer).1 = Result.ok (some j))
      ∧ (∀ j, ((mkPool [false, true, true] 0).NextServer).1 = Result.ok (some j) →
          ∃ b, (mkPool [false, true, true] 0).servers[j]? = some b ∧ b.IsAlive = true)
      ∧ (∀ j n, Result.ok (some j) ∉
          (((mkPool [false, true, true] 0).setAliveAt j false).NextServerTimes n).1) :=
  C1_NextServer_returns_alive (mkPool [false, true, true] 0) (by decide)

/-- C2, refuted as stated. Three members, all alive, cursor `2^64 - 2`: the three
calls start at index 0 and return the members 0, 0, 1 (the cursor wraps to 0 after
the first call), so member 0 is returned twice and member 2 not at all. -/
theorem C2_round_robin_counterexample :
    (mkPool [true, true, true] (2 ^ 64 - 2)).start = 0
      ∧ ((mkPool [true, true, true] (2 ^ 64 - 2)).NextServerTimes 3).1
          = [Result.ok (some 0), Result.ok (some 0), Result.ok (some 1)]
      ∧ ((mkPool [true, true, true] (2 ^ 64 - 2)).NextServerTimes 3).1
          ≠ (List.range 3).map (fun k => Result.ok (some ((0 + k) % 3))) := by
  decide

/-- C2, amended. For a pool of `N >= 1` members that are all alive and a cursor that
does not wrap around within the `N` calls (`(cursor + 1) mod 2^64 + N <= 2^64`),
`N` consecutive `NextServer` calls return the members at
`start, start+1, ..., start+N-1` modulo `N`, which is every member exactly once. -/
theorem C2_round_robin_no_wrap (s : ServerPool) (hN : 1 ≤ s.servers.length)
    (hall : ∀ b ∈ s.servers, b.IsAlive = true)
    (hwrap : (s.current + 1) % 2 ^ 64 + s.servers.length ≤ 2 ^ 64) :
    (s.NextServerTimes s.servers.length).1
        = (List.range s.servers.length).map
            (fun k => Result.ok (some ((s.start + k) % s.servers.length)))
      ∧ List.Perm (s.NextServerTimes s.servers.length).1
          ((List.range s.servers.length).map (fun j => Result.ok (some j))) := by
  have h := NextServerTimes_all_alive s.servers.length s hN hall hwrap
  refine ⟨h, ?_⟩
  rw [h]
  have hc : (List.range s.servers.length).map
      (fun k => (Result.ok (some ((s.start + k) % s.servers.length)) : Result (Option Nat)))
      = (s.candidates s.start).map (fun j => Result.ok (some j)) := by
    simp [ServerPool.candidates, Function.comp_def]
  rw [hc, candidates_eq_rotate]
  exact (List.rotate_perm _ _).map _

/-- C2 amended, on three alive members with cursor 4: the calls return 2, 0, 1. -/
theorem C2_round_robin_no_wrap_witness :
    ((mkPool [true, true, true] 4).NextServerTimes 3).1
        = (List.range 3).map (fun k => Result.ok (some (((mkPool [true, true, true] 4).start + k) % 3)))
      ∧ List.Perm ((mkPool [true, true, true] 4).NextServerTimes 3).1
          ((List.range 3).map (fun j => Result.ok (some j))) :=
  C2_round_robin_no_wrap (mkPool [true, true, true] 4) (by decide) (by decide) (by decide)

/-- C3. On a non-empty pool in which no member is alive, `NextServer` returns `nil`
and `loadBalancer` returns after logging exactly that selection and one
`http.Error` with status 503: no forward is attempted, the members are unchanged
and there is no further selection. -/
theorem C3_pool_exhaustion (fwd : Forwarder) (fuel : Nat) (st : State) (r : Request)
    (hN : st.serverPool.servers ≠ [])
    (hdead : ∀ b ∈ st.serverPool.servers, b.IsAlive = false) :
    (st.serverPool.NextServer).1 = Result.ok none
      ∧ loadBalancer fwd (fuel + 1) st r
          = Run.returned
              { serverPool :=
                  { servers := st.serverPool.servers,
                    current := (st.serverPool.current + 1) % 2 ^ 64 },
                forwards := st.forwards,
                trace := st.trace ++
                  [Event.nextServer (st.serverPool.servers.map Server.IsAlive) none,
                    Event.httpError 503] } := by
  have hlen : 0 < st.serverPool.servers.length := List.length_pos.mpr hN
  have hnone : (st.serverPool.NextServer).1 = Result.ok none :=
    (NextServer_none_iff _ hlen).mpr (aliveAt_of_all_dead _ hdead)
  refine ⟨hnone, ?_⟩
  obtain ⟨h1, h2, h3⟩ := NextServer_eq st.serverPool hlen
  rw [h1] at hnone
  injection hnone with hfind
  rw [hfind] at h3
  have hpool : (st.serverPool.NextServer).2
      = { servers := st.serverPool.servers, current := (st.serverPool.current + 1) % 2 ^ 64 } := by
    cases hp : (st.serverPool.NextServer).2 with
    | mk servers current =>
      rw [hp] at h2 h3
      simp only at h2 h3
      rw [h2, h3]
      rfl
  rw [loadBalancer]
  simp only [h1, hfind, hpool, State.emit, StatusServiceUnavailable, List.append_assoc,
    List.singleton_append]

/-- C3, on a pool of two members that are not alive, with cursor 4. -/
theorem C3_pool_exhaustion_witness :
    loadBalancer (fun _ _ => true) 1 (State.init (mkPool [false, false] 4)) Request.fresh
      = Run.returned
          { serverPool := { servers := (mkPool [false, false] 4).servers, current := 5 },
            forwards := 0,
            trace := [Event.nextServer [false, false] none, Event.httpError 503] } :=
  (C3_pool_exhaustion (fun _ _ => true) 0 (State.init (mkPool [false, false] 4)) Request.fresh
    (by decide) (by decide)).2

/-- C4. On a non-empty pool `NextServer` equals the reference selection: with
`start = (cursor + 1 mod 2^64) mod N` it returns the member at `(start + i) mod N`
for the least `i < N` whose member is alive, returns `nil` exactly when there is no
such `i`, and inspects at most `N` candidates. -/
theorem C4_NextServer_refines_spec (s : ServerPool) (hN : 1 ≤ s.servers.length) :
    (s.NextServer).1 = Result.ok (nextLiveSpec s)
      ∧ (∀ i, i < s.servers.length →
          s.aliveAt ((s.start + i) % s.servers.length) = true →
          (∀ k, k < i → s.aliveAt ((s.start + k) % s.servers.length) = false) →
          (s.NextServer).1 = Result.ok (some ((s.start + i) % s.servers.length)))
      ∧ ((s.NextServer).1 = Result.ok none ↔
          ¬ ∃ i, i < s.servers.length ∧ s.aliveAt ((s.start + i) % s.servers.length) = true)
      ∧ (ServerPool.NextServer.scan s).inspected.length ≤ s.servers.length := by
  have hlen : 0 < s.servers.length := hN
  refine ⟨NextServer_eq_spec s hlen, ?_, ?_, scan_inspected_length s hlen⟩
  · intro i hi halive hleast
    rw [NextServer_eq_spec s hlen, nextLiveSpec,
      find?_range_least (fun i => s.aliveAt ((s.start + i) % s.servers.length)) hi halive hleast]
    rfl
  · rw [NextServer_none_iff s hlen]
    constructor
    · rintro h ⟨i, _, hi⟩
      rw [h] at hi
      exact Bool.noConfusion hi
    · intro h j
      cases hal : s.aliveAt j with
      | false => rfl
      | true =>
        exfalso
        have hj := (mem_candidates s s.start j).mpr (aliveAt_lt s hal)
        simp only [ServerPool.candidates, List.mem_map, List.mem_range] at hj
        obtain ⟨i, hi, hij⟩ := hj
        exact h ⟨i, hi, by rw [hij]; exact hal⟩

/-- C4, on the pool `[alive, dead, dead, alive]` with cursor 0: the rotation starts
at index 1 and the least alive offset is 2. -/
theorem C4_NextServer_refines_spec_witness :
    ((mkPool [true, false, false, true] 0).NextServer).1
        = Result.ok (nextLiveSpec (mkPool [true, false, false, true] 0))
      ∧ nextLiveSpec (mkPool [true, false, false, true] 0) = some 3
      ∧ (ServerPool.NextServer.scan (mkPool [true, false, false, true] 0)).inspected = [1, 2, 3] :=
  ⟨(C4_NextServer_refines_spec (mkPool [true, false, false, true] 0) (by decide)).1,
    by decide, by decide⟩

/-- C5, refuted as stated. Members 0 and 1 alive, member 2 dead, cursor `2^64 - 2`:
the `k = 2` consecutive calls both return member 0 (the cursor wraps to 0 after the
first call), so the alive member 1 is not reached within `k` calls. -/
theorem C5_no_starvation_counterexample :
    (mkPool [true, true, false] (2 ^ 64 - 2)).servers.countP Server.IsAlive = 2
      ∧ ((mkPool [true, true, false] (2 ^ 64 - 2)).NextServerTimes 2).1
          = [Result.ok (some 0), Result.ok (some 0)]
      ∧ (mkPool [true, true, false] (2 ^ 64 - 2)).aliveAt 1 = true
      ∧ Result.ok (some 1) ∉ ((mkPool [true, true, false] (2 ^ 64 - 2)).NextServerTimes 2).1 := by
  decide

/-- C5, amended. For a pool with `k >= 1` alive members, fixed liveness, fewer than
`2^63` members, and a cursor that does not wrap around within the `k` calls
(`(cursor + 1) mod 2^64 + k <= 2^64`), `k` consecutive `NextServer` calls return the
alive members in cyclic index order from the rotation start, which is every alive
member exactly once; so every alive member is reached within `k` calls. -/
theorem C5_no_starvation_no_wrap (s : ServerPool) (k : Nat)
    (hk : k = s.servers.countP Server.IsAlive) (hk1 : 1 ≤ k)
    (hlen : s.servers.length < 2 ^ 63)
    (hwrap : (s.current + 1) % 2 ^ 64 + k ≤ 2 ^ 64) :
    (s.NextServerTimes k).1
        = (((List.range s.servers.length).map
              (fun i => (s.start + i) % s.servers.length)).filter s.aliveAt).map
            (fun j => Result.ok (some j))
      ∧ List.Perm (s.NextServerTimes k).1
          (((List.range s.servers.length).filter s.aliveAt).map (fun j => Result.ok (some j)))
      ∧ (∀ j, s.aliveAt j = true → Result.ok (some j) ∈ (s.NextServerTimes k).1) := by
  have hkle : k ≤ s.servers.length := hk ▸ List.countP_le_length _
  have hN : 0 < s.servers.length := by omega
  have hcyc : s.aliveCycle.length = k := by rw [aliveCycle_length, hk]
  have hmain := NextServerTimes_aliveCycle k s hN (by omega) hwrap
    (by show s.servers.length + k ≤ 2 ^ 64 + 1; omega)
  rw [← hcyc, List.take_length] at hmain
  rw [hcyc] at hmain
  have hperm : List.Perm (s.NextServerTimes k).1
      (((List.range s.servers.length).filter s.aliveAt).map (fun j => Result.ok (some j))) := by
    rw [hmain]
    exact (aliveCycle_perm s).map _
  refine ⟨hmain, hperm, ?_⟩
  intro j hj
  rw [hperm.mem_iff, List.mem_map]
  exact ⟨j, by simp [List.mem_filter, hj, aliveAt_lt s hj], rfl⟩

/-- C5 amended, on `[alive, dead, alive, alive]` with cursor 0: the three calls
return the members 2, 3, 0. -/
theorem C5_no_starvation_no_wrap_witness :
    ((mkPool [true, false, true, true] 0).NextServerTimes 3).1
        = [Result.ok (some 2), Result.ok (some 3), Result.ok (some 0)]
      ∧ List.Perm ((mkPool [true, false, true, true] 0).NextServerTimes 3).1
          (((List.range 4).filter (mkPool [true, false, true, true] 0).aliveAt).map
            (fun j => Result.ok (some j))) :=
  ⟨by decide,
    (C5_no_starvation_no_wrap (mkPool [true, false, true, true] 0) 3 (by decide) (by decide)
      (by decide) (by decide)).2.1⟩

/-- C6, refuted as stated. Members 0 and 1 share the address `x`; member 0 is not
alive and member 1 is. `NextServer` returns member 1, the forward fails, the error
handler retries (with success), marks the first member with address `x` not alive,
which is member 0, and re-dispatches; when it has completed member 1 is still
alive. -/
theorem C6_failure_marks_dead_counterexample :
    ((ServerPool.mk [⟨⟨"x"⟩, false⟩, ⟨⟨"x"⟩, true⟩] 0).NextServer).1 = Result.ok (some 1)
      ∧ ∃ st2, ErrorHandler (fun _ n => n != 0) 5 ⟨"x"⟩
            { serverPool := ((ServerPool.mk [⟨⟨"x"⟩, false⟩, ⟨⟨"x"⟩, true⟩] 0).NextServer).2,
              forwards := 1,
              trace := [Event.nextServer [false, true] (some 1),
                Event.forward ⟨"x"⟩ Request.fresh false] }
            Request.fresh = Run.returned st2
          ∧ st2.serverPool.servers = [⟨⟨"x"⟩, false⟩, ⟨⟨"x"⟩, true⟩]
          ∧ st2.serverPool.aliveAt 1 = true := by
  refine ⟨by decide, _, rfl, by decide, by decide⟩

/-- C6, amended. For a member `B` at position `j` whose address differs from the
address of every earlier member, once the error handler of `B` has completed (no
health check in between), `B` is not alive. -/
theorem C6_failure_marks_dead (fwd : Forwarder) (fuel : Nat) (st st2 : State) (req : Request)
    (j : Nat) (b : Server) (hb : st.serverPool.servers[j]? = some b)
    (hfirst : ∀ i b', i < j → st.serverPool.servers[i]? = some b' →
      b'.URL.String ≠ b.URL.String)
    (hret : ErrorHandler fwd fuel b.URL st req = Run.returned st2) :
    st2.serverPool.aliveAt j = false := by
  cases fuel with
  | zero => simp [ErrorHandler] at hret
  | succ fuel =>
    rw [ErrorHandler] at hret
    have h0 : st.Extends (st.emit (Event.logError b.URL)) := State.Extends.emit _ _
    generalize hrun : (if GetRetryFromContext req < 3 then
        ServeHTTP fwd fuel b.URL ((st.emit (Event.logError b.URL)).emit Event.sleep)
          { req with retry := some (intSucc (GetRetryFromContext req)) }
      else Run.returned (st.emit (Event.logError b.URL))) = run at hret
    have hext : st.Extends run.state := by
      rw [← hrun]
      split
      · exact h0.trans ((State.Extends.emit _ _).trans ((run_extends fwd fuel).2.1 _ _ _))
      · exact h0
    cases run with
    | panicked p st1 => simp at hret
    | outOfFuel st1 => simp at hret
    | returned st1 =>
      simp only at hret
      have hurls : st1.serverPool.servers.map Server.URL = st.serverPool.servers.map Server.URL :=
        hext.1
      obtain ⟨b1, hb1, hu1⟩ := url_of_map_eq hurls.symm hb
      have hfirst1 : ∀ i b', i < j → st1.serverPool.servers[i]? = some b' →
          b'.URL.String ≠ b1.URL.String := by
        intro i b' hi hb'
        obtain ⟨b0, hb0, hu0⟩ := url_of_map_eq hurls hb'
        rw [hu1, ← hu0]
        exact hfirst i b0 hi hb0
      have hdead := aliveAt_SetServerStatus_first st1.serverPool j b1 hb1 hfirst1
      rw [hu1] at hdead
      have hfin := ((run_extends fwd fuel).1
        (({ st1 with serverPool := st1.serverPool.SetServerStatus b.URL false } : State).emit
            (Event.setServerStatus b.URL false) |>.emit
          (Event.logAttempt (GetAttemptsFromContext req)))
        { req with attempts := some (intSucc (GetAttemptsFromContext req)) }).2.1 j
      rw [hret] at hfin
      cases hal : st2.serverPool.aliveAt j with
      | false => rfl
      | true =>
        have := hfin hal
        simp only [State.emit] at this
        rw [hdead] at this
        exact Bool.noConfusion this

/-- C6 amended, on the pool `[a, c]`, both alive, with the local retry and the
re-dispatch succeeding: after the handler of `a` member 0 is not alive. -/
theorem C6_failure_marks_dead_witness :
    (ErrorHandler (fun _ _ => true) 5 ⟨"a"⟩
        (State.init ⟨[⟨⟨"a"⟩, true⟩, ⟨⟨"c"⟩, true⟩], 0⟩) Request.fresh).state.serverPool.aliveAt 0
      = false :=
  C6_failure_marks_dead (fun _ _ => true) 5 (State.init ⟨[⟨⟨"a"⟩, true⟩, ⟨⟨"c"⟩, true⟩], 0⟩)
    (ErrorHandler (fun _ _ => true) 5 ⟨"a"⟩
      (State.init ⟨[⟨⟨"a"⟩, true⟩, ⟨⟨"c"⟩, true⟩], 0⟩) Request.fresh).state
    Request.fresh 0 ⟨⟨"a"⟩, true⟩ (by decide) (fun i _ hi _ => absurd hi (Nat.not_lt_zero i))
    (by decide)

/-- C7, the code at the failing input. One backend `a`, alive; the first forward
fails and the local retry succeeds. After the successful forward the handler still
calls `SetServerStatus(a, false)` and `loadBalancer` again, which finds no member
alive and writes a 503 on top of the relayed response. -/
theorem C7_success_does_not_end_request :
    loadBalancer (fun _ n => n == 1) 4 (State.init ⟨[⟨⟨"a"⟩, true⟩], 0⟩) Request.fresh
      = Run.returned
          { serverPool := ⟨[⟨⟨"a"⟩, false⟩], 2⟩,
            forwards := 2,
            trace :=
              [Event.nextServer [true] (some 0),
                Event.forward ⟨"a"⟩ ⟨none, none⟩ false,
                Event.logError ⟨"a"⟩,
                Event.sleep,
                Event.forward ⟨"a"⟩ ⟨none, some 1⟩ true,
                Event.setServerStatus ⟨"a"⟩ false,
                Event.logAttempt 1,
                Event.nextServer [false] none,
                Event.httpError 503] } := by
  decide

/-- C8. Local retry bound. (1) For a request without retry state and a backend `B`
whose forwards all fail, the log of the forward to `B` starts with four failed
forwards to `B` (the first and three re-forwards, carrying the counters 1, 2, 3),
each re-forward after a wait, and only then the first `SetServerStatus(B, false)` and
the re-dispatch. (2) Whatever the forwards do, every forward made while handling a
request whose counter is at most 3 carries a counter of at most 3. (3) An error handler
re-forwards to its own backend when the counter it reads is below 3, and otherwise
goes on to `SetServerStatus` without a forward. -/
theorem C8_local_retry_bound (fwd : Forwarder) :
    (∀ (B : URL) (fuel : Nat) (st : State) (r : Request),
        r.retry = none → (∀ n, fwd B n = false) →
        ∃ rest, (ServeHTTP fwd (fuel + 8) B st r).state.trace
          = st.trace ++
              [Event.forward B r false,
                Event.logError B, Event.sleep, Event.forward B { r with retry := some 1 } false,
                Event.logError B, Event.sleep, Event.forward B { r with retry := some 2 } false,
                Event.logError B, Event.sleep, Event.forward B { r with retry := some 3 } false,
                Event.logError B, Event.setServerStatus B false,
                Event.logAttempt (GetAttemptsFromContext r)] ++ rest)
      ∧ (∀ (fuel : Nat) (pool : ServerPool) (r : Request),
          -(2 ^ 63) ≤ GetRetryFromContext r → GetRetryFromContext r ≤ 3 →
          ∀ u q ok, Event.forward u q ok ∈ (loadBalancer fwd fuel (State.init pool) r).state.trace →
            GetRetryFromContext q ≤ 3)
      ∧ (∀ (B : URL) (fuel : Nat) (st : State) (r : Request),
          (GetRetryFromContext r < 3 →
            ∃ rest, (ErrorHandler fwd (fuel + 2) B st r).state.trace
              = st.trace ++
                  [Event.logError B, Event.sleep,
                    Event.forward B { r with retry := some (intSucc (GetRetryFromContext r)) }
                      (fwd B st.forwards)] ++ rest)
          ∧ (¬ GetRetryFromContext r < 3 →
            ∃ rest, (ErrorHandler fwd (fuel + 2) B st r).state.trace
              = st.trace ++
                  [Event.logError B, Event.setServerStatus B false,
                    Event.logAttempt (GetAttemptsFromContext r)] ++ rest)) := by
  refine ⟨?_, ?_, ?_⟩
  · intro B fuel st r hr hfail
    have h0 : GetRetryFromContext r = 0 := by simp [GetRetryFromContext, hr]
    have e1 : intSucc 0 = 1 := by decide
    have e2 : intSucc 1 = 2 := by decide
    have e3 : intSucc 2 = 3 := by decide
    have r1 := ServeHTTP_fail_round fwd (fuel + 6) B st r (hfail _) (by rw [h0]; decide)
    rw [h0, e1] at r1
    have r2 := ServeHTTP_fail_round fwd (fuel + 4) B
      { serverPool := st.serverPool, forwards := st.forwards + 1,
        trace := st.trace ++ [Event.forward B r false, Event.logError B, Event.sleep] }
      { r with retry := some 1 } (hfail _) (by show (1 : Int) < 3; decide)
    have g1 : GetRetryFromContext { r with retry := some 1 } = 1 := rfl
    rw [g1, e2] at r2
    have r3 := ServeHTTP_fail_round fwd (fuel + 2) B
      { serverPool := st.serverPool, forwards := st.forwards + 1 + 1,
        trace := st.trace ++ [Event.forward B r false, Event.logError B, Event.sleep] ++
          [Event.forward B { r with retry := some 1 } false, Event.logError B, Event.sleep] }
      { r with retry := some 2 } (hfail _) (by show (2 : Int) < 3; decide)
    have g2 : GetRetryFromContext { r with retry := some 2 } = 2 := rfl
    rw [g2, e3] at r3
    have r4 := ErrorHandler_exhausted fwd fuel B
      (({ serverPool := st.serverPool, forwards := st.forwards + 1 + 1 + 1 + 1,
          trace := st.trace ++ [Event.forward B r false, Event.logError B, Event.sleep] ++
            [Event.forward B { r with retry := some 1 } false, Event.logError B, Event.sleep] ++
            [Event.forward B { r with retry := some 2 } false, Event.logError B, Event.sleep] ++
            [Event.forward B { r with retry := some 3 } false] } : State))
      { r with retry := some 3 } (by show ¬ (3 : Int) < 3; decide)
    have r5 := ServeHTTP_fail fwd (fuel + 1) B
      { serverPool := st.serverPool, forwards := st.forwards + 1 + 1 + 1,
        trace := st.trace ++ [Event.forward B r false, Event.logError B, Event.sleep] ++
          [Event.forward B { r with retry := some 1 } false, Event.logError B, Event.sleep] ++
          [Event.forward B { r with retry := some 2 } false, Event.logError B, Event.sleep] }
      { r with retry := some 3 } (hfail _)
    simp only [State.emit] at r5
    rw [← r5] at r4
    obtain ⟨rest, hrest⟩ := (r4.trans r3).trans (r2.trans r1)
    refine ⟨rest, ?_⟩
    rw [← hrest]
    simp [GetAttemptsFromContext]
  · intro fuel pool r hlo hhi u q ok hmem
    have hinv := (run_trace_invariant fwd
      (fun t => ∀ u q ok, Event.forward u q ok ∈ t → GetRetryFromContext q ≤ 3)
      (fun r => -(2 ^ 63) ≤ GetRetryFromContext r ∧ GetRetryFromContext r ≤ 3)
      (fun r hQ hlt => by
        show -(2 ^ 63) ≤ intSucc (GetRetryFromContext r) ∧ intSucc (GetRetryFromContext r) ≤ 3
        exact ⟨intSucc_ge _, by rw [intSucc_eq _ hQ.1 (by omega)]; omega⟩)
      (fun r hQ => hQ)
      (fun t alive j hP u q ok hm => hP u q ok (by simpa using hm))
      (fun t alive hP _ u q ok hm => hP u q ok (by simpa [StatusServiceUnavailable] using hm))
      (fun t u2 r2 ok2 hP hQ u q ok hm => by
        rcases List.mem_append.mp hm with hm | hm
        · exact hP u q ok hm
        · simp only [List.mem_singleton, Event.forward.injEq] at hm
          rw [hm.2.1]
          exact hQ.2)
      (fun t u2 hP u q ok hm => hP u q ok (by simpa using hm))
      (fun t hP u q ok hm => hP u q ok (by simpa using hm))
      (fun t u2 hP u q ok hm => hP u q ok (by simpa using hm))
      (fun t a hP u q ok hm => hP u q ok (by simpa using hm))
      fuel).1 (State.init pool) r (fun _ _ _ hm => by simp [State.init] at hm) ⟨hlo, hhi⟩
    exact hinv u q ok hmem
  · intro B fuel st r
    constructor
    · intro hlt
      have h1 := ErrorHandler_retry fwd (fuel + 1) B st r hlt
      have h2 := ServeHTTP_trace fwd fuel B ((st.emit (Event.logError B)).emit Event.sleep)
        { r with retry := some (intSucc (GetRetryFromContext r)) }
      obtain ⟨rest, hrest⟩ := h2.trans h1
      refine ⟨rest, ?_⟩
      rw [← hrest]
      simp [State.emit]
    · intro hge
      obtain ⟨rest, hrest⟩ := ErrorHandler_exhausted fwd (fuel + 1) B st r hge
      exact ⟨rest, hrest.symm⟩

/-- C8, on one backend `a` whose forwards all fail, for a fresh request: the log
starts with the four failed forwards and the first `SetServerStatus`; and no forward
in the whole log carries a counter above 3. -/
theorem C8_local_retry_bound_witness :
    (∃ rest, (ServeHTTP (fun _ _ => false) 8 ⟨"a"⟩ (State.init ⟨[⟨⟨"a"⟩, true⟩], 0⟩)
          Request.fresh).state.trace
        = (State.init ⟨[⟨⟨"a"⟩, true⟩], 0⟩).trace ++
            [Event.forward ⟨"a"⟩ Request.fresh false,
              Event.logError ⟨"a"⟩, Event.sleep,
              Event.forward ⟨"a"⟩ { Request.fresh with retry := some 1 } false,
              Event.logError ⟨"a"⟩, Event.sleep,
              Event.forward ⟨"a"⟩ { Request.fresh with retry := some 2 } false,
              Event.logError ⟨"a"⟩, Event.sleep,
              Event.forward ⟨"a"⟩ { Request.fresh with retry := some 3 } false,
              Event.logError ⟨"a"⟩, Event.setServerStatus ⟨"a"⟩ false,
              Event.logAttempt (GetAttemptsFromContext Request.fresh)] ++ rest)
      ∧ (∀ u q ok, Event.forward u q ok ∈
            (loadBalancer (fun _ _ => false) 20 (State.init ⟨[⟨⟨"a"⟩, true⟩], 0⟩)
              Request.fresh).state.trace →
          GetRetryFromContext q ≤ 3) :=
  ⟨(C8_local_retry_bound (fun _ _ => false)).1 ⟨"a"⟩ 0 (State.init ⟨[⟨⟨"a"⟩, true⟩], 0⟩)
      Request.fresh rfl (fun _ => rfl),
    (C8_local_retry_bound (fun _ _ => false)).2.1 20 ⟨[⟨⟨"a"⟩, true⟩], 0⟩ Request.fresh
      (by decide) (by decide)⟩

/-- C9. Whatever the pool, the request and the outcomes of the forwards, every
`http.Error` in the log of handling the request carries status 503 and comes right
after a `NextServer` call that returned `nil` with no member alive; so an error
response never follows a failed forward directly. -/
theorem C9_only_exhaustion_reaches_client (fwd : Forwarder) (fuel : Nat) (pool : ServerPool)
    (r : Request) (pre post : List Event) (code : Nat)
    (h : (loadBalancer fwd fuel (State.init pool) r).state.trace
      = pre ++ Event.httpError code :: post) :
    code = 503
      ∧ ∃ pre2 alive, pre = pre2 ++ [Event.nextServer alive none] ∧ ∀ a ∈ alive, a = false :=
  run_errorsOnlyOnExhaustion fwd fuel (State.init pool) r
    (fun pre code post h0 => by simp [State.init] at h0) pre code post h

/-- C9, on one backend `a` whose first forward fails and whose local retry succeeds:
the only error written is the 503 after the re-dispatch found no member alive. -/
theorem C9_only_exhaustion_reaches_client_witness :
    (503 : Nat) = 503
      ∧ ∃ pre2 alive,
          [Event.nextServer [true] (some 0),
            Event.forward ⟨"a"⟩ ⟨none, none⟩ false,
            Event.logError ⟨"a"⟩,
            Event.sleep,
            Event.forward ⟨"a"⟩ ⟨none, some 1⟩ true,
            Event.setServerStatus ⟨"a"⟩ false,
            Event.logAttempt 1,
            Event.nextServer [false] none]
          = pre2 ++ [Event.nextServer alive none] ∧ ∀ a ∈ alive, a = false :=
  C9_only_exhaustion_reaches_client (fun _ n => n == 1) 4 ⟨[⟨⟨"a"⟩, true⟩], 0⟩ Request.fresh
    [Event.nextServer [true] (some 0),
      Event.forward ⟨"a"⟩ ⟨none, none⟩ false,
      Event.logError ⟨"a"⟩,
      Event.sleep,
      Event.forward ⟨"a"⟩ ⟨none, some 1⟩ true,
      Event.setServerStatus ⟨"a"⟩ false,
      Event.logAttempt 1,
      Event.nextServer [false] none]
    [] 503 (by decide)

/-- C10. `SetServerStatus(u, v)` sets to `v` the liveness of the first member whose
address renders like `u` and changes nothing else: the other members, the member
sequence (length and addresses) and the cursor are as before; when no member's
address renders like `u` the pool is unchanged. The call cannot fail. -/
theorem C10_SetServerStatus_frame (s : ServerPool) (u : URL) (v : Bool) :
    (s.SetServerStatus u v).current = s.current
      ∧ (s.SetServerStatus u v).servers.map Server.URL = s.servers.map Server.URL
      ∧ (∀ j b, s.servers[j]? = some b → b.URL.String = u.String →
          (∀ i b', i < j → s.servers[i]? = some b' → b'.URL.String ≠ u.String) →
          (s.SetServerStatus u v).servers = s.servers.set j { URL := b.URL, Alive := v })
      ∧ ((∀ b ∈ s.servers, b.URL.String ≠ u.String) → s.SetServerStatus u v = s) := by
  refine ⟨rfl, SetServerStatus_loop_urls u v s.servers, ?_, ?_⟩
  · intro j b hb hu hfirst
    exact SetServerStatus_loop_set u v s.servers j b hb hu hfirst
  · intro h
    show ({ servers := _, current := _ } : ServerPool) = s
    rw [SetServerStatus_loop_none u v s.servers h]

/-- C10, on a pool in which members 1 and 2 share the address `b`: only member 1
is changed. -/
theorem C10_SetServerStatus_frame_witness :
    (ServerPool.SetServerStatus ⟨[⟨⟨"a"⟩, true⟩, ⟨⟨"b"⟩, true⟩, ⟨⟨"b"⟩, true⟩], 7⟩ ⟨"b"⟩ false).servers
      = [⟨⟨"a"⟩, true⟩, ⟨⟨"b"⟩, false⟩, ⟨⟨"b"⟩, true⟩] :=
  (C10_SetServerStatus_frame ⟨[⟨⟨"a"⟩, true⟩, ⟨⟨"b"⟩, true⟩, ⟨⟨"b"⟩, true⟩], 7⟩ ⟨"b"⟩ false).2.2.1
    1 ⟨⟨"b"⟩, true⟩ (by decide) (by decide)
    (by
      intro i b' hi hb'
      have hi0 : i = 0 := by omega
      subst hi0
      simp only [List.getElem?_cons_zero, Option.some.injEq] at hb'
      subst hb'
      decide)

/-- C11. Scenario, single backend. Pool `[A]` with `A` alive, every forward to `A`
failing, a request without retry state: handling terminates, makes exactly four
forward attempts to `A` (the first and three local retries), leaves `A` not alive,
and every response written is a 503 after a selection that found no member alive
(one by each of the four handlers as they fall through to the re-dispatch). -/
theorem C11_single_backend_exhaustion (fwd : Forwarder) (A : URL) (c fuel : Nat)
    (hfail : ∀ n, fwd A n = false) (hfuel : 10 ≤ fuel) :
    ∃ cur, loadBalancer fwd fuel (State.init ⟨[⟨A, true⟩], c⟩) Request.fresh
      = Run.returned
          { serverPool := ⟨[⟨A, false⟩], cur⟩,
            forwards := 4,
            trace :=
              [Event.nextServer [true] (some 0),
                Event.forward A ⟨none, none⟩ false,
                Event.logError A, Event.sleep, Event.forward A ⟨none, some 1⟩ false,
                Event.logError A, Event.sleep, Event.forward A ⟨none, some 2⟩ false,
                Event.logError A, Event.sleep, Event.forward A ⟨none, some 3⟩ false,
                Event.logError A,
                Event.setServerStatus A false, Event.logAttempt 1,
                Event.nextServer [false] none, Event.httpError 503,
                Event.setServerStatus A false, Event.logAttempt 1,
                Event.nextServer [false] none, Event.httpError 503,
                Event.setServerStatus A false, Event.logAttempt 1,
                Event.nextServer [false] none, Event.httpError 503,
                Event.setServerStatus A false, Event.logAttempt 1,
                Event.nextServer [false] none, Event.httpError 503] } := by
  obtain ⟨f, rfl⟩ : ∃ f, fuel = f + 10 := ⟨fuel - 10, by omega⟩
  have e1 : intSucc 0 = 1 := by decide
  have e2 : intSucc 1 = 2 := by decide
  have e3 : intSucc 2 = 3 := by decide
  refine ⟨(((((c + 1) % uint64Mod + 1) % uint64Mod + 1) % uint64Mod + 1) % uint64Mod + 1)
    % uint64Mod, ?_⟩
  simp [loadBalancer, ServeHTTP, ErrorHandler, hfail, NextServer_singleton_alive,
    NextServer_singleton_dead, SetServerStatus_singleton, State.init, State.emit,
    Request.fresh, GetRetryFromContext, GetAttemptsFromContext, e1, e2, e3,
    StatusServiceUnavailable, Server.IsAlive]

/-- C11, for the backend `a`, cursor 0 and a budget of ten nested calls. -/
theorem C11_single_backend_exhaustion_witness :
    (loadBalancer (fun _ _ => false) 10 (State.init ⟨[⟨⟨"a"⟩, true⟩], 0⟩)
        Request.fresh).state.forwards = 4
      ∧ (loadBalancer (fun _ _ => false) 10 (State.init ⟨[⟨⟨"a"⟩, true⟩], 0⟩)
          Request.fresh).state.serverPool.servers = [⟨⟨"a"⟩, false⟩] := by
  obtain ⟨cur, h⟩ := C11_single_backend_exhaustion (fun _ _ => false) ⟨"a"⟩ 0 10
    (fun _ => rfl) (by decide)
  rw [h]
  exact ⟨rfl, rfl⟩

/-- C12. Scenario, failover. A pool of three members with pairwise distinct
addresses, all alive, a fresh request; the first-selected member `X` fails its
first forward and its three local retries, the other two succeed. Then the log of
the handling begins: selection of `X`, four failed forwards to `X`,
`SetServerStatus(X, false)`, a selection that sees `X` not alive and returns the
member after `X` in the rotation, and a successful forward to that member, whose
response is relayed. With a budget of 28 nested calls the handling returns. -/
theorem C12_failover (fwd : Forwarder) (pool : ServerPool) (fuel X : Nat) (bX bY : Server)
    (hlen : pool.servers.length = 3)
    (hd : (pool.servers.map (fun b => b.URL.String)).Nodup)
    (hall : ∀ b ∈ pool.servers, b.IsAlive = true)
    (hX : (pool.NextServer).1 = Result.ok (some X))
    (hbX : pool.servers[X]? = some bX)
    (hbY : pool.servers[(X + 1) % 3]? = some bY)
    (hfailX : ∀ m, m < 4 → fwd bX.URL m = false)
    (hok : ∀ b ∈ pool.servers, b.URL ≠ bX.URL → ∀ m, fwd b.URL m = true)
    (hfuel : 11 ≤ fuel) :
    (∃ rest, (loadBalancer fwd fuel (State.init pool) Request.fresh).state.trace
        = [Event.nextServer [true, true, true] (some X),
            Event.forward bX.URL ⟨none, none⟩ false,
            Event.logError bX.URL, Event.sleep, Event.forward bX.URL ⟨none, some 1⟩ false,
            Event.logError bX.URL, Event.sleep, Event.forward bX.URL ⟨none, some 2⟩ false,
            Event.logError bX.URL, Event.sleep, Event.forward bX.URL ⟨none, some 3⟩ false,
            Event.logError bX.URL, Event.setServerStatus bX.URL false, Event.logAttempt 1,
            Event.nextServer ([true, true, true].set X false) (some ((X + 1) % 3)),
            Event.forward bY.URL ⟨some 2, some 3⟩ true] ++ rest)
      ∧ (28 ≤ fuel →
          ∃ st2, loadBalancer fwd fuel (State.init pool) Request.fresh = Run.returned st2) := by
  have hN : 0 < pool.servers.length := by omega
  have hdist : pool.Distinct := hd
  constructor
  · obtain ⟨h1, hserv, hcur⟩ := NextServer_all_alive pool hN hall
    have hXs : X = pool.start := by
      rw [h1] at hX
      injection hX with h
      injection h with h
      exact h.symm
    have hXlt : X < pool.servers.length := by rw [hXs]; exact start_lt pool hN
    obtain ⟨f, rfl⟩ : ∃ f, fuel = f + 11 := ⟨fuel - 11, by omega⟩
    -- the liveness snapshots
    have hsnap : pool.servers.map Server.IsAlive = [true, true, true] := by
      obtain ⟨a, b, c, habc⟩ := List.length_eq_three.mp hlen
      rw [habc] at hall ⊢
      simp [hall a (by simp), hall b (by simp), hall c (by simp)]
    -- the first selection and the four failed forwards
    have hb1 : (pool.NextServer).2.servers[X]? = some bX := by rw [hserv]; exact hbX
    have e1 := loadBalancer_select fwd (f + 2 + 2 * 3 + 2) (State.init pool) Request.fresh X bX
      hX hb1
    have e2 := ServeHTTP_all_fail fwd bX.URL 3 (f + 2)
      { serverPool := (pool.NextServer).2, forwards := (State.init pool).forwards,
        trace := (State.init pool).trace ++
          [Event.nextServer ((State.init pool).serverPool.servers.map Server.IsAlive) (some X)] }
      Request.fresh rfl (by decide)
      (fun m hm => hfailX _ (by show 0 + m < 4; omega))
    -- the pool at the re-dispatch
    obtain ⟨pool3, hpool3⟩ : ∃ p : ServerPool, p = (pool.NextServer).2.SetServerStatus bX.URL false :=
      ⟨_, rfl⟩
    have hserv3 : pool3.servers = pool.servers.set X (bX.SetAlive false) := by
      rw [hpool3]
      show ServerPool.SetServerStatus.loop bX.URL false (pool.NextServer).2.servers = _
      rw [hserv]
      exact SetServerStatus_loop_set bX.URL false pool.servers X bX hbX rfl (hdist.first hbX)
    have hlen3 : pool3.servers.length = 3 := by rw [hserv3, List.length_set]; exact hlen
    have hYX : (X + 1) % 3 ≠ X := by omega
    have hb3 : pool3.servers[(X + 1) % 3]? = some bY := by
      rw [hserv3, List.getElem?_set_ne (Ne.symm hYX)]; exact hbY
    have hdead3 : pool3.aliveAt X = false := by
      unfold ServerPool.aliveAt
      rw [hserv3, List.getElem?_set_self hXlt]
      rfl
    have hY3 : pool3.aliveAt ((X + 1) % pool3.servers.length) = true := by
      rw [hlen3, aliveAt_of_getElem? hb3]
      exact hall bY (List.getElem?_mem hbY)
    have hstart3 : pool3.start = (X + 1) % pool3.servers.length ∨ pool3.start = X := by
      have hc3 : pool3.current = (pool.current + 1) % uint64Mod := by rw [hpool3]; exact hcur
      have hXv : X = ((pool.current + 1) % uint64Mod) % 3 := by
        rw [hXs, ServerPool.start, hlen]
      have hlt : (pool.current + 1) % uint64Mod < uint64Mod := Nat.mod_lt _ (by decide)
      rw [ServerPool.start, hc3, hlen3]
      generalize (pool.current + 1) % uint64Mod = a at hXv hlt
      have hM : uint64Mod = 18446744073709551616 := by decide
      rw [hM] at hlt ⊢
      by_cases hwrap : a + 1 < 18446744073709551616
      · rw [Nat.mod_eq_of_lt hwrap]
        omega
      · have ha : a = 18446744073709551615 := by omega
        subst ha
        right
        rw [hXv]
    have hsel3 : (pool3.NextServer).1 = Result.ok (some ((X + 1) % 3)) := by
      have := NextServer_after_skip pool3 (by omega) X (by omega) hdead3 hY3 hstart3
      rwa [hlen3] at this
    have hb4 : (pool3.NextServer).2.servers[(X + 1) % 3]? = some bY := by
      rw [(NextServer_eq pool3 (by omega)).2.1]; exact hb3
    have hsnap3 : pool3.servers.map Server.IsAlive = [true, true, true].set X false := by
      rw [hserv3, List.map_set, hsnap]
      rfl
    -- the second forward succeeds
    have hneY : bY.URL ≠ bX.URL := by
      intro heq
      exact hYX (hdist.unique hbX hbY heq)
    have hokY : ∀ m, fwd bY.URL m = true := hok bY (List.getElem?_mem hbY) hneY
    rw [← hpool3] at e2
    have e3 := loadBalancer_select fwd (f + 1)
      { serverPool := pool3, forwards := 0 + 3 + 1,
        trace := [] ++ [Event.nextServer (pool.servers.map Server.IsAlive) (some X)]
          ++ [Event.forward bX.URL Request.fresh false]
          ++ retryRounds bX.URL Request.fresh.attempts (GetRetryFromContext Request.fresh) 3
          ++ [Event.logError bX.URL, Event.setServerStatus bX.URL false,
              Event.logAttempt (GetAttemptsFromContext Request.fresh)] }
      { attempts := some (intSucc (GetAttemptsFromContext Request.fresh)), retry := some 3 }
      ((X + 1) % 3) bY hsel3 hb4
    have e4 := ServeHTTP_trace fwd f bY.URL
      { serverPool := (pool3.NextServer).2, forwards := 0 + 3 + 1,
        trace := ([] ++ [Event.nextServer (pool.servers.map Server.IsAlive) (some X)]
          ++ [Event.forward bX.URL Request.fresh false]
          ++ retryRounds bX.URL Request.fresh.attempts (GetRetryFromContext Request.fresh) 3
          ++ [Event.logError bX.URL, Event.setServerStatus bX.URL false,
              Event.logAttempt (GetAttemptsFromContext Request.fresh)])
          ++ [Event.nextServer (pool3.servers.map Server.IsAlive) (some ((X + 1) % 3))] }
      { attempts := some (intSucc (GetAttemptsFromContext Request.fresh)), retry := some 3 }
    rw [hokY] at e4
    have e5 : (loadBalancer fwd (f + 11) (State.init pool) Request.fresh)
        = ServeHTTP fwd (f + 2 + 2 * 3 + 2) bX.URL
            { serverPool := (pool.NextServer).2, forwards := (State.init pool).forwards,
              trace := (State.init pool).trace ++
                [Event.nextServer ((State.init pool).serverPool.servers.map Server.IsAlive)
                  (some X)] } Request.fresh := e1
    rw [e5]
    have e6 : loadBalancer fwd (f + 2)
        { serverPool := pool3, forwards := 0 + 3 + 1,
          trace := [] ++ [Event.nextServer (pool.servers.map Server.IsAlive) (some X)]
            ++ [Event.forward bX.URL Request.fresh false]
            ++ retryRounds bX.URL Request.fresh.attempts (GetRetryFromContext Request.fresh) 3
            ++ [Event.logError bX.URL, Event.setServerStatus bX.URL false,
                Event.logAttempt (GetAttemptsFromContext Request.fresh)] }
        { attempts := some (intSucc (GetAttemptsFromContext Request.fresh)), retry := some 3 }
        = _ := e3
    have e7 := e2
    simp only [State.init] at e7
    rw [e6] at e7
    obtain ⟨rest, hrest⟩ := e4.trans e7
    refine ⟨rest, ?_⟩
    simp only [State.init]
    rw [← hrest, hsnap3, hsnap]
    have i1 : intSucc 1 = 2 := by decide
    simp [retryRounds, Request.fresh, GetRetryFromContext, GetAttemptsFromContext, i1]
  · intro h28
    obtain ⟨st2, hret, _⟩ := loadBalancer_handled fwd pool.servers.length (State.init pool)
      Request.fresh fuel hdist hN (aliveSet_card_le pool) (by decide) (by rw [hlen]; omega)
    exact ⟨st2, hret⟩

/-- C12, on the pool `[a, b, c]` with cursor 0: `b` is selected first and fails four
times, `c` is selected next and succeeds. -/
theorem C12_failover_witness :
    ∃ rest, (loadBalancer (fun u _ => u != ⟨"b"⟩) 11
          (State.init ⟨[⟨⟨"a"⟩, true⟩, ⟨⟨"b"⟩, true⟩, ⟨⟨"c"⟩, true⟩], 0⟩) Request.fresh).state.trace
        = [Event.nextServer [true, true, true] (some 1),
            Event.forward ⟨"b"⟩ ⟨none, none⟩ false,
            Event.logError ⟨"b"⟩, Event.sleep, Event.forward ⟨"b"⟩ ⟨none, some 1⟩ false,
            Event.logError ⟨"b"⟩, Event.sleep, Event.forward ⟨"b"⟩ ⟨none, some 2⟩ false,
            Event.logError ⟨"b"⟩, Event.sleep, Event.forward ⟨"b"⟩ ⟨none, some 3⟩ false,
            Event.logError ⟨"b"⟩, Event.setServerStatus ⟨"b"⟩ false, Event.logAttempt 1,
            Event.nextServer [true, false, true] (some 2),
            Event.forward ⟨"c"⟩ ⟨some 2, some 3⟩ true] ++ rest :=
  (C12_failover (fun u _ => u != ⟨"b"⟩)
    ⟨[⟨⟨"a"⟩, true⟩, ⟨⟨"b"⟩, true⟩, ⟨⟨"c"⟩, true⟩], 0⟩ 11 1 ⟨⟨"b"⟩, true⟩ ⟨⟨"c"⟩, true⟩
    (by decide) (by decide) (by decide) (by decide) (by decide) (by decide)
    (fun _ _ => by
      show ((⟨"b"⟩ : URL) != ⟨"b"⟩) = false
      decide)
    (fun b _ hne m => by
      show (b.URL != ⟨"b"⟩) = true
      simpa using hne)
    (by decide)).1

/-- C13. `HealthCheck` sets the liveness of every member to what the probe answers
for its address and leaves the addresses, the member sequence and the cursor as they
were; a member `D` whose probe succeeds is alive afterwards, whatever it was
before, and a later `NextServer` whose rotation starts at `D` returns `D`. -/
theorem C13_HealthCheck_sets_probe_result (s : ServerPool) (p : URL → Bool) :
    (s.HealthCheck p).current = s.current
      ∧ (s.HealthCheck p).servers.map Server.URL = s.servers.map Server.URL
      ∧ (∀ (j : Nat) (b : Server), s.servers[j]? = some b →
          (s.HealthCheck p).servers[j]? = some ({ URL := b.URL, Alive := p b.URL } : Server))
      ∧ (∀ D b, s.servers[D]? = some b → p b.URL = true →
          (s.HealthCheck p).aliveAt D = true
            ∧ ∀ c, ((c + 1) % 2 ^ 64) % s.servers.length = D →
                (ServerPool.NextServer
                  { servers := (s.HealthCheck p).servers, current := c }).1
                  = Result.ok (some D)) := by
  have hget : ∀ (j : Nat) (b : Server), s.servers[j]? = some b →
      (s.HealthCheck p).servers[j]? = some ({ URL := b.URL, Alive := p b.URL } : Server) := by
    intro j b hb
    show (ServerPool.HealthCheck.loop p s.servers)[j]? = _
    rw [HealthCheck_loop_getElem?, hb]
    rfl
  refine ⟨rfl, HealthCheck_loop_urls p s.servers, hget, ?_⟩
  intro D b hb hp
  have hD : D < s.servers.length := (List.getElem?_eq_some.mp hb).1
  have hlen : (s.HealthCheck p).servers.length = s.servers.length :=
    HealthCheck_loop_length p s.servers
  have halive : (s.HealthCheck p).aliveAt D = true := by
    rw [aliveAt_of_getElem? (hget D b hb)]
    exact hp
  refine ⟨halive, ?_⟩
  intro c hc
  have hN : 0 < (ServerPool.mk (s.HealthCheck p).servers c).servers.length := by
    show 0 < (s.HealthCheck p).servers.length
    omega
  have hstart : (ServerPool.mk (s.HealthCheck p).servers c).start = D := by
    show ((c + 1) % 2 ^ 64) % (s.HealthCheck p).servers.length = D
    rw [hlen]; exact hc
  have h := NextServer_least (ServerPool.mk (s.HealthCheck p).servers c) hN
    (i := 0) hN
    (by
      rw [hstart, Nat.add_zero]
      show (ServerPool.mk (s.HealthCheck p).servers c).aliveAt
        (D % (s.HealthCheck p).servers.length) = true
      rw [hlen, Nat.mod_eq_of_lt hD]
      exact halive)
    (fun k hk => absurd hk (Nat.not_lt_zero k))
  rw [h, hstart, Nat.add_zero]
  show Result.ok (some (D % (s.HealthCheck p).servers.length)) = _
  rw [hlen, Nat.mod_eq_of_lt hD]

/-- C13, on the pool `[b0 alive, b1 dead]` with a probe that reaches only `b1`:
afterwards member 0 is not alive, member 1 is, and a selection with cursor 0 returns
member 1. -/
theorem C13_HealthCheck_sets_probe_result_witness :
    ((mkPool [true, false] 0).HealthCheck (fun u => u == ⟨"b1"⟩)).aliveAt 1 = true
      ∧ ∀ c, ((c + 1) % 2 ^ 64) % (mkPool [true, false] 0).servers.length = 1 →
          (ServerPool.NextServer
            { servers := ((mkPool [true, false] 0).HealthCheck (fun u => u == ⟨"b1"⟩)).servers,
              current := c }).1
            = Result.ok (some 1) :=
  (C13_HealthCheck_sets_probe_result (mkPool [true, false] 0) (fun u => u == ⟨"b1"⟩)).2.2.2
    1 ⟨⟨"b1"⟩, false⟩ (by decide) (by decide)

/-- C14. `IsAlive` after `SetAlive(v)` returns `v`; on a server whose liveness is
already `v`, `SetAlive(v)` changes nothing; doing it twice is doing it once; and
`SetAlive` leaves the address as it was. -/
theorem C14_SetAlive_idempotent (s : Server) (v : Bool) :
    (s.SetAlive v).IsAlive = v
      ∧ (s.IsAlive = v → s.SetAlive v = s)
      ∧ (s.SetAlive v).SetAlive v = s.SetAlive v
      ∧ (s.SetAlive v).URL = s.URL := by
  refine ⟨rfl, ?_, rfl, rfl⟩
  intro h
  cases s with
  | mk url alive =>
    simp only [Server.IsAlive] at h
    simp [Server.SetAlive, h]

/-- C14, on a server that is alive: `SetAlive(true)` leaves it as it is. -/
theorem C14_SetAlive_idempotent_witness :
    Server.SetAlive ⟨⟨"a"⟩, true⟩ true = ⟨⟨"a"⟩, true⟩ :=
  (C14_SetAlive_idempotent ⟨⟨"a"⟩, true⟩ true).2.1 rfl

/-- C15. On a pool with at least one member, for every cursor: `NextIndex` does not
divide by zero and its index is below the number of members; `NextServer` does not
panic, every index at which it accesses `servers` is below the number of members,
and so is the index of the member it returns. -/
theorem C15_index_safety (s : ServerPool) (hN : 1 ≤ s.servers.length) :
    (∃ idx, (s.NextIndex).1 = Result.ok idx ∧ idx < s.servers.length)
      ∧ (∃ r, (s.NextServer).1 = Result.ok r)
      ∧ (∀ k ∈ (ServerPool.NextServer.scan s).inspected, k < s.servers.length)
      ∧ (∀ j, (s.NextServer).1 = Result.ok (some j) → j < s.servers.length) := by
  refine ⟨⟨s.start, by rw [NextIndex_eq s hN], start_lt s hN⟩, NextServer_ok s hN,
    scan_inspected_lt s hN, ?_⟩
  intro j hj
  exact aliveAt_lt s (NextServer_some_alive s hN hj)

/-- C15, on `[dead, dead, alive]` with the largest cursor: the indices accessed
are 0, 1, 2. -/
theorem C15_index_safety_witness :
    (ServerPool.NextServer.scan (mkPool [false, false, true] (2 ^ 64 - 1))).inspected = [0, 1, 2]
      ∧ ∀ k ∈ (ServerPool.NextServer.scan (mkPool [false, false, true] (2 ^ 64 - 1))).inspected,
          k < (mkPool [false, false, true] (2 ^ 64 - 1)).servers.length :=
  ⟨by decide,
    (C15_index_safety (mkPool [false, false, true] (2 ^ 64 - 1)) (by decide)).2.2.1⟩

/-- C16, refuted as stated. Two members share the address `x`, both alive, every
forward fails, a fresh request with cursor 0. After two nested calls the handler of
`x` is about to run for the first failed forward. It takes the local retry, and that
retry never returns, whatever the budget of nested calls: the innermost handler marks
the first member with address `x`, the second stays alive and is selected and fails
again, without end. So this handler invocation never returns and never gets to its
own `SetServerStatus` and re-dispatch, which come after the retry. -/
theorem C16_fall_through_counterexample :
    loadBalancer (fun _ _ => false) 2
        (State.init ⟨[⟨⟨"x"⟩, true⟩, ⟨⟨"x"⟩, true⟩], 0⟩) Request.fresh
      = Run.outOfFuel
          { serverPool := ⟨[⟨⟨"x"⟩, true⟩, ⟨⟨"x"⟩, true⟩], 1⟩, forwards := 1,
            trace := [Event.nextServer [true, true] (some 1),
              Event.forward ⟨"x"⟩ Request.fresh false] }
      ∧ (¬ ∃ fuel st1, ServeHTTP (fun _ _ => false) fuel ⟨"x"⟩
            ((State.emit
              { serverPool := ⟨[⟨⟨"x"⟩, true⟩, ⟨⟨"x"⟩, true⟩], 1⟩, forwards := 1,
                trace := [Event.nextServer [true, true] (some 1),
                  Event.forward ⟨"x"⟩ Request.fresh false] }
              (Event.logError ⟨"x"⟩)).emit Event.sleep)
            { Request.fresh with retry := some (intSucc (GetRetryFromContext Request.fresh)) }
          = Run.returned st1)
      ∧ (¬ ∃ fuel st2, ErrorHandler (fun _ _ => false) fuel ⟨"x"⟩
            { serverPool := ⟨[⟨⟨"x"⟩, true⟩, ⟨⟨"x"⟩, true⟩], 1⟩, forwards := 1,
              trace := [Event.nextServer [true, true] (some 1),
                Event.forward ⟨"x"⟩ Request.fresh false] }
            Request.fresh
          = Run.returned st2) := by
  refine ⟨by decide, ?_, ?_⟩
  · rintro ⟨fuel, st1, h⟩
    exact (twin_never_returns (fun _ _ => false) ⟨"x"⟩ (fun _ => rfl) fuel).2.1 _ _
      (Or.inl rfl) st1 h
  · rintro ⟨fuel, st2, h⟩
    exact (twin_never_returns (fun _ _ => false) ⟨"x"⟩ (fun _ => rfl) fuel).2.2 _ _
      (Or.inl rfl) st2 h

/-- C16, amended. Fall-through in the failure handler, for an invocation whose retry
branch returns. Let `a` be the attempt count the request carries (1 when it carries
none). (1) Whenever the retry branch of the handler of `B` has returned, taken or
not, with the local retry failed or not, the handler calls `SetServerStatus(B, false)`
and re-invokes `loadBalancer` with the attempt count `a` plus one. (2) That plus one
is exact below the largest `int`. (3) The retry branch returns when it is not
taken, (4) when the local retry succeeds: after a failed forward and a successful
local retry `B` is marked not alive and the request is dispatched again; (5) and,
given budget enough, whenever the addresses of the pool are pairwise distinct and
the retry counter is not negative: then the handler returns, and its log holds its
`SetServerStatus(B, false)` followed by the attempt log line. -/
theorem C16_fall_through (fwd : Forwarder) (fuel : Nat) (B : URL) (st : State) (req : Request)
    (a : Int) (ha : req.attempts = some a ∨ (req.attempts = none ∧ a = 1)) :
    (∀ st1,
        (if GetRetryFromContext req < 3 then
            ServeHTTP fwd fuel B ((st.emit (Event.logError B)).emit Event.sleep)
              { req with retry := some (intSucc (GetRetryFromContext req)) }
          else Run.returned (st.emit (Event.logError B))) = Run.returned st1 →
        ErrorHandler fwd (fuel + 1) B st req
          = loadBalancer fwd fuel
              { serverPool := st1.serverPool.SetServerStatus B false,
                forwards := st1.forwards,
                trace := st1.trace ++ [Event.setServerStatus B false, Event.logAttempt a] }
              { attempts := some (intSucc a), retry := req.retry })
      ∧ (-(2 ^ 63) ≤ a → a < 2 ^ 63 - 1 → intSucc a = a + 1)
      ∧ (¬ GetRetryFromContext req < 3 →
          ErrorHandler fwd (fuel + 1) B st req
            = loadBalancer fwd fuel
                { serverPool := st.serverPool.SetServerStatus B false,
                  forwards := st.forwards,
                  trace := st.trace ++
                    [Event.logError B, Event.setServerStatus B false, Event.logAttempt a] }
                { attempts := some (intSucc a), retry := req.retry })
      ∧ (GetRetryFromContext req < 3 → fwd B st.forwards = true →
          ErrorHandler fwd (fuel + 2) B st req
            = loadBalancer fwd (fuel + 1)
                { serverPool := st.serverPool.SetServerStatus B false,
                  forwards := st.forwards + 1,
                  trace := st.trace ++
                    [Event.logError B, Event.sleep,
                      Event.forward B
                        { req with retry := some (intSucc (GetRetryFromContext req)) } true,
                      Event.setServerStatus B false, Event.logAttempt a] }
                { attempts := some (intSucc a), retry := req.retry })
      ∧ ((st.serverPool.servers.map (fun b => b.URL.String)).Nodup →
          ∀ (j : Nat) (b : Server), st.serverPool.servers[j]? = some b → b.URL = B →
          0 ≤ GetRetryFromContext req → 9 * st.serverPool.servers.length + 9 ≤ fuel →
          ∃ st1 st2 pre post,
            (if GetRetryFromContext req < 3 then
                ServeHTTP fwd fuel B ((st.emit (Event.logError B)).emit Event.sleep)
                  { req with retry := some (intSucc (GetRetryFromContext req)) }
              else Run.returned (st.emit (Event.logError B))) = Run.returned st1
            ∧ ErrorHandler fwd (fuel + 1) B st req = Run.returned st2
            ∧ st1.trace = st.trace ++ pre
            ∧ st2.trace = st1.trace ++ [Event.setServerStatus B false, Event.logAttempt a]
                ++ post) := by
  have hget : GetAttemptsFromContext req = a := by
    rcases ha with h | ⟨h, h1⟩
    · simp [GetAttemptsFromContext, h]
    · simp [GetAttemptsFromContext, h, h1]
  refine ⟨?_, fun hlo hhi => intSucc_eq _ hlo hhi, ?_, ?_, ?_⟩
  · intro st1 h
    rw [ErrorHandler_after_retry fwd fuel B st st1 req h, hget]
  · intro h3
    rw [ErrorHandler_exhausted_eq fwd fuel B st req h3, hget]
  · intro hlt hok
    have hS : ServeHTTP fwd (fuel + 1) B ((st.emit (Event.logError B)).emit Event.sleep)
          { req with retry := some (intSucc (GetRetryFromContext req)) }
        = Run.returned
            { serverPool := st.serverPool, forwards := st.forwards + 1,
              trace := st.trace ++ [Event.logError B, Event.sleep,
                Event.forward B
                  { req with retry := some (intSucc (GetRetryFromContext req)) } true] } := by
      rw [ServeHTTP]
      simp [hok, State.emit]
    rw [ErrorHandler_after_retry fwd (fuel + 1) B st _ req (by rw [if_pos hlt]; exact hS), hget]
    simp
  · intro hnodup j b hb hbu hr hfuel
    have hd : st.serverPool.Distinct := hnodup
    have hcard : (st.serverPool.aliveSet.erase j).card ≤ st.serverPool.servers.length :=
      (Finset.card_erase_le).trans (aliveSet_card_le _)
    have hLB := loadBalancer_handled fwd st.serverPool.servers.length
    -- the retry branch returns
    obtain ⟨st1, hrun, hext1⟩ : ∃ st1,
        (if GetRetryFromContext req < 3 then
            ServeHTTP fwd fuel B ((st.emit (Event.logError B)).emit Event.sleep)
              { req with retry := some (intSucc (GetRetryFromContext req)) }
          else Run.returned (st.emit (Event.logError B))) = Run.returned st1
        ∧ st.Extends st1 := by
      by_cases h3 : GetRetryFromContext req < 3
      · have hsucc : intSucc (GetRetryFromContext req) = GetRetryFromContext req + 1 :=
          intSucc_eq _ (by omega) (by omega)
        obtain ⟨st1, hret1, hext, _⟩ := ServeHTTP_handled fwd st.serverPool.servers.length hLB 3
          fuel B ((st.emit (Event.logError B)).emit Event.sleep)
          { req with retry := some (intSucc (GetRetryFromContext req)) } j b hd hb hbu hcard
          (by show 0 ≤ intSucc (GetRetryFromContext req); rw [hsucc]; omega)
          (by
            show 3 ≤ intSucc (GetRetryFromContext req) + ((3 : Nat) : Int)
            rw [hsucc]; push_cast; omega)
          (by
            show 9 * st.serverPool.servers.length + 3 + 2 * 3 ≤ fuel
            omega)
        exact ⟨st1, by rw [if_pos h3]; exact hret1,
          (State.Extends.emit _ _).trans ((State.Extends.emit _ _).trans hext)⟩
      · exact ⟨_, by rw [if_neg h3], State.Extends.emit _ _⟩
    -- the handler marks and re-dispatches, and the re-dispatch returns
    have hurls := hext1.1
    obtain ⟨b1, hb1, hbu1⟩ := @url_of_map_eq st.serverPool.servers st1.serverPool.servers
      hurls.symm j b hb
    have hlen1 : st1.serverPool.servers.length = st.serverPool.servers.length := by
      have h1 := congrArg List.length hurls
      rwa [List.length_map, List.length_map] at h1
    have hcard1 : (st1.serverPool.aliveSet.erase j).card ≤ st.serverPool.servers.length :=
      (Finset.card_le_card
        (Finset.erase_subset_erase j (aliveSet_subset_of_extends hext1))).trans hcard
    obtain ⟨st2, hret, _, _, _, _⟩ := ErrorHandler_finish fwd st.serverPool.servers.length hLB
      fuel B st st1 req j b1 hrun (ServerPool.Distinct.of_urls hd hurls) hb1
      (by rw [hbu1, hbu]) hcard1 hr (by omega)
    obtain ⟨pre, hpre⟩ := hext1.2.2.1
    have hret2 := hret
    rw [ErrorHandler_after_retry fwd fuel B st st1 req hrun] at hret2
    obtain ⟨post, hpost⟩ := ((run_extends fwd fuel).1
      { serverPool := st1.serverPool.SetServerStatus B false,
        forwards := st1.forwards,
        trace := st1.trace ++
          [Event.setServerStatus B false, Event.logAttempt (GetAttemptsFromContext req)] }
      { attempts := some (intSucc (GetAttemptsFromContext req)), retry := req.retry }).2.2.1
    rw [hret2] at hpost
    refine ⟨st1, st2, pre, post, hrun, hret, hpre, ?_⟩
    have hpost2 : st2.trace = st1.trace ++
        [Event.setServerStatus B false, Event.logAttempt (GetAttemptsFromContext req)]
        ++ post := hpost
    rw [hpost2, hget]

/-- C16 amended, on one backend `a`: the first forward has failed, the local retry
succeeds, and the handler goes on to mark `a` and to dispatch again, with the
attempt count 1 plus one. -/
theorem C16_fall_through_witness :
    ErrorHandler (fun _ n => n == 1) 2 ⟨"a"⟩
        { serverPool := ⟨[⟨⟨"a"⟩, true⟩], 1⟩, forwards := 1,
          trace := [Event.nextServer [true] (some 0), Event.forward ⟨"a"⟩ Request.fresh false] }
        Request.fresh
      = loadBalancer (fun _ n => n == 1) 1
          { serverPool := ServerPool.SetServerStatus ⟨[⟨⟨"a"⟩, true⟩], 1⟩ ⟨"a"⟩ false,
            forwards := 1 + 1,
            trace := [Event.nextServer [true] (some 0), Event.forward ⟨"a"⟩ Request.fresh false] ++
              [Event.logError ⟨"a"⟩, Event.sleep,
                Event.forward ⟨"a"⟩
                  { Request.fresh with
                    retry := some (intSucc (GetRetryFromContext Request.fresh)) } true,
                Event.setServerStatus ⟨"a"⟩ false,
                Event.logAttempt 1] }
          { attempts := some (intSucc 1), retry := Request.fresh.retry } :=
  (C16_fall_through (fun _ n => n == 1) 0 ⟨"a"⟩
    { serverPool := ⟨[⟨⟨"a"⟩, true⟩], 1⟩, forwards := 1,
      trace := [Event.nextServer [true] (some 0), Event.forward ⟨"a"⟩ Request.fresh false] }
    Request.fresh 1 (Or.inr ⟨rfl, rfl⟩)).2.2.2.1 (by decide) (by decide)

/-- C17. On a non-empty pool with cursor `c` and `start = (c + 1 mod 2^64) mod N`:
when `NextServer` returns the member at index `j`, the cursor afterwards is `j` if
`j` differs from `start` and `c + 1 mod 2^64` if `j = start`, and in both cases it is
`j` modulo `N`; when `NextServer` returns `nil` the cursor is `c + 1 mod 2^64`; the
members are unchanged. -/
theorem C17_cursor_update (s : ServerPool) (hN : 1 ≤ s.servers.length) :
    (∀ j, (s.NextServer).1 = Result.ok (some j) →
        (j ≠ ((s.current + 1) % 2 ^ 64) % s.servers.length → (s.NextServer).2.current = j)
          ∧ (j = ((s.current + 1) % 2 ^ 64) % s.servers.length →
              (s.NextServer).2.current = (s.current + 1) % 2 ^ 64)
          ∧ (s.NextServer).2.current % s.servers.length = j)
      ∧ ((s.NextServer).1 = Result.ok none →
          (s.NextServer).2.current = (s.current + 1) % 2 ^ 64)
      ∧ (s.NextServer).2.servers = s.servers := by
  obtain ⟨h1, h2, h3⟩ := NextServer_eq s hN
  refine ⟨?_, ?_, h2⟩
  · intro j hj
    have hmod := (NextServer_current s hN hj).1
    rw [h1] at hj
    injection hj with hj
    simp only [hj] at h3
    refine ⟨?_, ?_, hmod⟩
    · intro hne
      have hne2 : j ≠ s.start := hne
      rw [h3, if_pos hne2]
    · intro heq
      have heq2 : ¬ j ≠ s.start := fun h => h heq
      rw [h3, if_neg heq2]
      rfl
  · intro hnone
    rw [h1] at hnone
    injection hnone with hnone
    simp only [hnone] at h3
    exact h3

/-- C17, on `[alive, dead, dead]` with cursor 100: the rotation starts at 2, member 0
is returned and the cursor becomes 0. -/
theorem C17_cursor_update_witness :
    ((mkPool [true, false, false] 100).NextServer).1 = Result.ok (some 0)
      ∧ ((mkPool [true, false, false] 100).NextServer).2.current = 0 :=
  ⟨by decide,
    ((C17_cursor_update (mkPool [true, false, false] 100) (by decide)).1 0 (by decide)).1
      (by decide)⟩

/-- C18. Termination of dispatch. For a non-empty pool with pairwise distinct URL
strings, any liveness and cursor, any outcomes of the forwards and a request whose
retry counter is not negative (as when it arrives), without health check: handling
the request returns within a budget of `9 * N + 1` nested calls; no backend suffers
more than four failed forward attempts; and at no point of the handling, however
far it has got, is a member alive that was not alive at the start. -/
theorem C18_dispatch_terminates (fwd : Forwarder) (pool : ServerPool) (r : Request)
    (fuel : Nat) (hN : pool.servers ≠ [])
    (hd : (pool.servers.map (fun b => b.URL.String)).Nodup)
    (hr : 0 ≤ GetRetryFromContext r) (hfuel : 9 * pool.servers.length + 1 ≤ fuel) :
    (∃ st2, loadBalancer fwd fuel (State.init pool) r = Run.returned st2
        ∧ ∀ u, failedForwards u st2.trace ≤ 4)
      ∧ (∀ m j, (loadBalancer fwd m (State.init pool) r).state.serverPool.aliveAt j = true →
          pool.aliveAt j = true) := by
  constructor
  · obtain ⟨st2, hret, _, hfail⟩ := loadBalancer_handled fwd pool.servers.length
      (State.init pool) r fuel hd (List.length_pos.mpr hN) (aliveSet_card_le pool) hr hfuel
    refine ⟨st2, hret, fun u => ?_⟩
    have := (hfail u).2.1
    simpa [State.init, failedForwards] using this
  · intro m j hj
    exact ((run_extends fwd m).1 (State.init pool) r).2.1 j hj

/-- C18, on two backends with distinct addresses whose forwards all fail: handling
returns, and each backend has suffered at most four failed forwards. -/
theorem C18_dispatch_terminates_witness :
    ∃ st2, loadBalancer (fun _ _ => false) 19
          (State.init ⟨[⟨⟨"a"⟩, true⟩, ⟨⟨"c"⟩, true⟩], 0⟩) Request.fresh = Run.returned st2
        ∧ ∀ u, failedForwards u st2.trace ≤ 4 :=
  (C18_dispatch_terminates (fun _ _ => false) ⟨[⟨⟨"a"⟩, true⟩, ⟨⟨"c"⟩, true⟩], 0⟩ Request.fresh 19
    (by decide) (by decide) (by decide) (by decide)).1

/-- C19, refuted as stated. Members `[alive, dead, dead]`, cursor 100: the rotation
starts at index 2, the scan goes on to member 0 and stores its index, so the cursor
after the call is 0, below 100. -/
theorem C19_cursor_monotone_counterexample :
    (100 : Nat) < 2 ^ 64 - 1
      ∧ ((mkPool [true, false, false] 100).NextServer).1 = Result.ok (some 0)
      ∧ ((mkPool [true, false, false] 100).NextServer).2.current = 0
      ∧ ¬ (100 ≤ ((mkPool [true, false, false] 100).NextServer).2.current) := by
  decide

/-- C19, amended. On a non-empty pool with cursor `c` below `2^64 - 1`: when
`NextServer` returns `nil` or the member at the rotation start, the cursor afterwards
is `c + 1`, above `c`; otherwise the cursor afterwards is the index of the returned
member, which is below the number of members. -/
theorem C19_cursor_monotone_unless_skip (s : ServerPool) (hN : 1 ≤ s.servers.length)
    (hc : s.current < 2 ^ 64 - 1) :
    (((s.NextServer).1 = Result.ok none
          ∨ (s.NextServer).1 = Result.ok (some (((s.current + 1) % 2 ^ 64) % s.servers.length))) →
        (s.NextServer).2.current = s.current + 1 ∧ s.current ≤ (s.NextServer).2.current)
      ∧ (∀ j, (s.NextServer).1 = Result.ok (some j) →
          j ≠ ((s.current + 1) % 2 ^ 64) % s.servers.length →
          (s.NextServer).2.current = j ∧ j < s.servers.length) := by
  obtain ⟨h1, _, h3⟩ := NextServer_eq s hN
  have hmod : (s.current + 1) % uint64Mod = s.current + 1 :=
    Nat.mod_eq_of_lt (by show s.current + 1 < 2 ^ 64; omega)
  constructor
  · intro h
    have hcur : (s.NextServer).2.current = s.current + 1 := by
      rcases h with h | h
      · rw [h1] at h
        injection h with h
        simp only [h] at h3
        rw [h3]; exact hmod
      · rw [h1] at h
        injection h with h
        simp only [h] at h3
        have : ¬ (((s.current + 1) % 2 ^ 64) % s.servers.length ≠ s.start) := fun hh => hh rfl
        rw [h3, if_neg this]; exact hmod
    exact ⟨hcur, by omega⟩
  · intro j hj hne
    have hlt : j < s.servers.length := aliveAt_lt s (NextServer_some_alive s hN hj)
    rw [h1] at hj
    injection hj with hj
    simp only [hj] at h3
    have hne2 : j ≠ s.start := hne
    rw [h3, if_pos hne2]
    exact ⟨rfl, hlt⟩

/-- C19 amended, on three alive members with cursor 100: the cursor becomes 101. -/
theorem C19_cursor_monotone_unless_skip_witness :
    ((mkPool [true, true, true] 100).NextServer).2.current = 100 + 1
      ∧ 100 ≤ ((mkPool [true, true, true] 100).NextServer).2.current :=
  (C19_cursor_monotone_unless_skip (mkPool [true, true, true] 100) (by decide) (by decide)).1
    (Or.inr (by decide))

/-- C20. The retry counter is not reset on re-dispatch. (1) The request a handler
passes to `loadBalancer` carries the retry counter the handler read; only the attempt
count is replaced. (2) Every forward made while handling a request that carries the
counter `r`, `0 <= r <= 3`, carries a counter between `r` and 3. (3) Against a
backend whose forwards all fail, a request carrying `r = 3 - n` gets exactly `n`
local retries before the backend is marked, (4) and none when `r = 3`. -/
theorem C20_retry_not_reset (fwd : Forwarder) :
    (∀ (fuel : Nat) (B : URL) (st st1 : State) (req : Request),
        (if GetRetryFromContext req < 3 then
            ServeHTTP fwd fuel B ((st.emit (Event.logError B)).emit Event.sleep)
              { req with retry := some (intSucc (GetRetryFromContext req)) }
          else Run.returned (st.emit (Event.logError B))) = Run.returned st1 →
        ∃ st3, ErrorHandler fwd (fuel + 1) B st req
            = loadBalancer fwd fuel st3
                { attempts := some (intSucc (GetAttemptsFromContext req)), retry := req.retry }
          ∧ GetRetryFromContext
                { attempts := some (intSucc (GetAttemptsFromContext req)), retry := req.retry }
              = GetRetryFromContext req)
      ∧ (∀ (fuel : Nat) (pool : ServerPool) (q : Request),
          0 ≤ GetRetryFromContext q → GetRetryFromContext q ≤ 3 →
          ∀ u q2 ok, Event.forward u q2 ok ∈ (loadBalancer fwd fuel (State.init pool) q).state.trace →
            GetRetryFromContext q ≤ GetRetryFromContext q2 ∧ GetRetryFromContext q2 ≤ 3)
      ∧ (∀ (C : URL) (n fuel : Nat) (st : State) (q : Request),
          GetRetryFromContext q = 3 - (n : Int) → n ≤ 3 →
          (∀ m, m ≤ n → fwd C (st.forwards + m) = false) →
          ∃ rest, (ServeHTTP fwd (fuel + 2 * n + 2) C st q).state.trace
            = st.trace ++ [Event.forward C q false]
                ++ retryRounds C q.attempts (GetRetryFromContext q) n
                ++ [Event.logError C, Event.setServerStatus C false,
                    Event.logAttempt (GetAttemptsFromContext q)] ++ rest)
      ∧ (∀ (C : URL) (fuel : Nat) (st : State) (q : Request),
          GetRetryFromContext q = 3 → fwd C st.forwards = false →
          ∃ rest, (ServeHTTP fwd (fuel + 2) C st q).state.trace
            = st.trace ++
                [Event.forward C q false, Event.logError C, Event.setServerStatus C false,
                  Event.logAttempt (GetAttemptsFromContext q)] ++ rest) := by
  have hthree : ∀ (C : URL) (n fuel : Nat) (st : State) (q : Request),
      GetRetryFromContext q = 3 - (n : Int) → n ≤ 3 →
      (∀ m, m ≤ n → fwd C (st.forwards + m) = false) →
      ∃ rest, (ServeHTTP fwd (fuel + 2 * n + 2) C st q).state.trace
        = st.trace ++ [Event.forward C q false]
            ++ retryRounds C q.attempts (GetRetryFromContext q) n
            ++ [Event.logError C, Event.setServerStatus C false,
                Event.logAttempt (GetAttemptsFromContext q)] ++ rest := by
    intro C n fuel st q hq hn hfail
    obtain ⟨r1, hr1⟩ := ((run_extends fwd fuel).1
      { serverPool := st.serverPool.SetServerStatus C false,
        forwards := st.forwards + n + 1,
        trace := st.trace ++ [Event.forward C q false]
          ++ retryRounds C q.attempts (GetRetryFromContext q) n
          ++ [Event.logError C, Event.setServerStatus C false,
              Event.logAttempt (GetAttemptsFromContext q)] }
      { attempts := some (intSucc (GetAttemptsFromContext q)), retry := some 3 }).2.2.1
    obtain ⟨r2, hr2⟩ := ServeHTTP_all_fail fwd C n fuel st q hq hn hfail
    refine ⟨r1 ++ r2, ?_⟩
    rw [← hr2, hr1]
    simp [List.append_assoc]
  refine ⟨?_, ?_, hthree, ?_⟩
  · intro fuel B st st1 req h
    exact ⟨_, ErrorHandler_after_retry fwd fuel B st st1 req h, rfl⟩
  · intro fuel pool q hlo hhi u q2 ok hmem
    have hinv := (run_trace_invariant fwd
      (fun t => ∀ u q2 ok, Event.forward u q2 ok ∈ t →
        GetRetryFromContext q ≤ GetRetryFromContext q2 ∧ GetRetryFromContext q2 ≤ 3)
      (fun r => GetRetryFromContext q ≤ GetRetryFromContext r ∧ GetRetryFromContext r ≤ 3)
      (fun r hQ hlt => by
        show GetRetryFromContext q ≤ intSucc (GetRetryFromContext r)
          ∧ intSucc (GetRetryFromContext r) ≤ 3
        rw [intSucc_eq _ (by omega) (by omega)]
        omega)
      (fun r hQ => hQ)
      (fun t alive j hP u q2 ok hm => hP u q2 ok (by simpa using hm))
      (fun t alive hP _ u q2 ok hm => hP u q2 ok (by simpa [StatusServiceUnavailable] using hm))
      (fun t u2 r2 ok2 hP hQ u q2 ok hm => by
        rcases List.mem_append.mp hm with hm | hm
        · exact hP u q2 ok hm
        · simp only [List.mem_singleton, Event.forward.injEq] at hm
          rw [hm.2.1]
          exact hQ)
      (fun t u2 hP u q2 ok hm => hP u q2 ok (by simpa using hm))
      (fun t hP u q2 ok hm => hP u q2 ok (by simpa using hm))
      (fun t u2 hP u q2 ok hm => hP u q2 ok (by simpa using hm))
      (fun t a hP u q2 ok hm => hP u q2 ok (by simpa using hm))
      fuel).1 (State.init pool) q (fun _ _ _ hm => by simp [State.init] at hm)
        ⟨le_refl _, hhi⟩
    exact hinv u q2 ok hmem
  · intro C fuel st q hq hfail
    obtain ⟨rest, hrest⟩ := hthree C 0 fuel st q (by rw [hq]; rfl) (by decide)
      (fun m hm => by
        have : m = 0 := by omega
        subst this
        exact hfail)
    refine ⟨rest, ?_⟩
    have hfuel : fuel + 2 * 0 + 2 = fuel + 2 := by omega
    rw [hfuel] at hrest
    rw [hrest]
    simp [retryRounds]

/-- C20, on a backend `c` whose forwards fail, for a re-dispatched request that
carries the counter 2: one local retry, then the marking. -/
theorem C20_retry_not_reset_witness :
    ∃ rest, (ServeHTTP (fun _ _ => false) (0 + 2 * 1 + 2) ⟨"c"⟩
          (State.init ⟨[⟨⟨"c"⟩, true⟩], 0⟩) ⟨some 2, some 2⟩).state.trace
        = (State.init ⟨[⟨⟨"c"⟩, true⟩], 0⟩).trace ++ [Event.forward ⟨"c"⟩ ⟨some 2, some 2⟩ false]
            ++ retryRounds ⟨"c"⟩ (some 2) (GetRetryFromContext ⟨some 2, some 2⟩) 1
            ++ [Event.logError ⟨"c"⟩, Event.setServerStatus ⟨"c"⟩ false,
                Event.logAttempt (GetAttemptsFromContext ⟨some 2, some 2⟩)] ++ rest :=
  (C20_retry_not_reset (fun _ _ => false)).2.2.1 ⟨"c"⟩ 1 0 (State.init ⟨[⟨⟨"c"⟩, true⟩], 0⟩)
    ⟨some 2, some 2⟩ (by decide) (by decide) (fun _ _ => rfl)

end LoadBalancer
